import Mathlib

/-!
# Verification of the crypto-predictor core

Shallow embedding, over `ℚ`, of the consensus decision engine
(`src/app/main.py`), the technical scoring agent (`src/agents/technical.py`
with the indicator library `src/core/indicators.py`), the order level
calculator (`src/trade/risk.py`), the paper-trade lifecycle
(`src/trade/paper.py`, `src/trade/close_paper_trades.py`), the daily risk
limits (`src/trade/limits.py`) and the backtest simulation engine
(`src/backtest/core.py`).

Python floats are modelled as rational numbers; Python's `round(x, n)`
(round-half-to-even on the scaled value) is modelled exactly by
`pyRound`.  Code that reads the wall clock or the data store is modelled
by passing the observed values explicitly (an `Env` record), so that every
function is a pure function of its arguments plus the observed
environment.
-/

namespace CryptoPred

/-- `clamp(v, lo, hi) = max(lo, min(hi, v))` — the helper used throughout
`src/agents/technical.py` and inlined (`max(-1.0, min(1.0, _))`) in
`src/app/main.py`. -/
def clamp (v lo hi : ℚ) : ℚ := max lo (min hi v)

/-- Round-half-to-even of a rational to an integer — the rounding mode of
Python's builtin `round`. -/
def roundHalfEven (y : ℚ) : ℤ :=
  if y - ⌊y⌋ < 1/2 then ⌊y⌋
  else if 1/2 < y - ⌊y⌋ then ⌊y⌋ + 1
  else if ⌊y⌋ % 2 = 0 then ⌊y⌋ else ⌊y⌋ + 1

/-- Python's `round(x, n)` for `n ≥ 0`: round-half-to-even at the `n`-th
decimal place. -/
def pyRound (x : ℚ) (n : ℕ) : ℚ :=
  (roundHalfEven (x * (10 : ℚ) ^ n) : ℚ) / (10 : ℚ) ^ n

/-- ASCII upper-casing of a string, modelling Python's `str.upper()` on the
identifiers (`"long"`, `"LONG"`, …) that occur in this code base. -/
def sUpper (s : String) : String := ⟨s.data.map Char.toUpper⟩

/-! ## Order Level Calculator — `compute_order_levels`, `src/trade/risk.py` -/

/-- The record returned by `compute_order_levels`. -/
structure OrderLevels where
  side : String
  entry : ℚ
  stop_loss : ℚ
  take_profit : ℚ
  risk_pct : ℚ
  rr : ℚ
  deriving DecidableEq, Repr

/-- `compute_order_levels` (`src/trade/risk.py`).  The Python function
raises `ValueError` on an invalid side; the embedding returns `none`
there. -/
def compute_order_levels (side : String) (price : ℚ) (risk_pct : ℚ)
    (rr : ℚ) (sl_distance_pct : ℚ) : Option OrderLevels :=
  if sUpper side = "LONG" then
    some ⟨"LONG", pyRound price 6, pyRound (price * (1 - sl_distance_pct)) 6,
      pyRound (price + (price - price * (1 - sl_distance_pct)) * rr) 6,
      risk_pct, rr⟩
  else if sUpper side = "SHORT" then
    some ⟨"SHORT", pyRound price 6, pyRound (price * (1 + sl_distance_pct)) 6,
      pyRound (price - (price * (1 + sl_distance_pct) - price) * rr) 6,
      risk_pct, rr⟩
  else
    none

/-! ## Trade close PnL — `_compute_pnl_r`, `src/trade/paper.py` (build/lib) -/

/-- `_compute_pnl_r` (`src/build/lib/src/trade/paper.py`): R-multiple of a
closed trade, defensively `0.0` when the risk distance is not positive,
`0.0` for an unknown side. -/
def compute_pnl_r (side : String) (entry stop_loss exit_price : ℚ) : ℚ :=
  if sUpper side = "LONG" then
    if entry - stop_loss ≤ 0 then 0
    else (exit_price - entry) / (entry - stop_loss)
  else if sUpper side = "SHORT" then
    if stop_loss - entry ≤ 0 then 0
    else (entry - exit_price) / (stop_loss - entry)
  else 0

/-! ## Basic facts about the rounding model -/

theorem roundHalfEven_sub_le (y : ℚ) : |(roundHalfEven y : ℚ) - y| ≤ 1/2 := by
  unfold roundHalfEven
  have hfl : (⌊y⌋ : ℚ) ≤ y := Int.floor_le y
  have hlt : y < (⌊y⌋ : ℚ) + 1 := Int.lt_floor_add_one y
  split
  · next h =>
      rw [abs_sub_comm, abs_of_nonneg (by linarith)]
      linarith
  · split
    · next h1 h2 =>
        push_neg at h1
        rw [abs_of_nonneg (by push_cast; linarith)]
        push_cast
        linarith
    · split
      · next h1 h2 _ =>
          push_neg at h1 h2
          rw [abs_sub_comm, abs_of_nonneg (by linarith)]
          linarith
      · next h1 h2 _ =>
          push_neg at h1 h2
          rw [abs_of_nonneg (by push_cast; linarith)]
          push_cast
          linarith

theorem pyRound_sub_le (x : ℚ) (n : ℕ) :
    |pyRound x n - x| ≤ 1 / (2 * (10 : ℚ) ^ n) := by
  have hpow : (0 : ℚ) < (10 : ℚ) ^ n := by positivity
  have h := roundHalfEven_sub_le (x * (10 : ℚ) ^ n)
  have key : pyRound x n - x
      = ((roundHalfEven (x * (10:ℚ)^n) : ℚ) - x * (10:ℚ)^n) / (10:ℚ)^n := by
    unfold pyRound
    field_simp
    ring
  rw [key, abs_div, abs_of_pos hpow, div_le_div_iff₀ hpow (by positivity)]
  nlinarith [h, hpow]

/-! ## Daily risk limits — `src/trade/limits.py` -/

/-- The in-memory daily trading state
`{"date": ..., "n_trades": ..., "risk_used_r": ...}`. -/
structure DailyTradingState where
  date : String
  n_trades : ℤ
  risk_used_r : ℚ
  deriving DecidableEq, Repr

/-- The persisted JSON object, fields possibly missing (Python
`state.get` / `state.setdefault`). -/
structure RawTradingState where
  date : Option String
  n_trades : Option ℤ
  risk_used_r : Option ℚ
  deriving DecidableEq, Repr

/-- Contents of `data/trading_daily_state.json` as observed by
`_load_trading_state`: `none` = file absent, `some none` = unreadable
(JSON parse error), `some (some st)` = parsed object. -/
def StoredState : Type := Option (Option RawTradingState)

/-- `_load_trading_state` (`src/trade/limits.py`): load or initialise the
daily state; resets on missing file, unreadable file, or a persisted date
different from today's UTC date.  `today` is the wall-clock UTC date read
by `_today_str`, passed explicitly. -/
def load_trading_state (stored : StoredState) (today : String) :
    DailyTradingState :=
  match stored with
  | none => ⟨today, 0, 0⟩
  | some none => ⟨today, 0, 0⟩
  | some (some st) =>
      if st.date = some today then
        ⟨today, st.n_trades.getD 0, st.risk_used_r.getD 0⟩
      else
        ⟨today, 0, 0⟩

/-- Python `f"{x:.2f}"` on our rational model of floats. -/
def fmt2 (x : ℚ) : String :=
  let s : ℤ := roundHalfEven (x * 100)
  let sign := if s < 0 then "-" else ""
  let a : ℕ := s.natAbs
  sign ++ toString (a / 100) ++ "." ++
    (if a % 100 < 10 then "0" else "") ++ toString (a % 100)

/-- `check_trading_limits` (`src/trade/limits.py`).  A limit value of `0`
disables the corresponding check. -/
def check_trading_limits (max_trades_per_day : ℤ)
    (max_daily_risk_r max_risk_per_trade_r assumed_r_per_trade : ℚ)
    (stored : StoredState) (today : String) : Bool × String :=
  if max_risk_per_trade_r > 0 ∧ assumed_r_per_trade > max_risk_per_trade_r then
    (false, "risk_per_trade_r " ++ fmt2 assumed_r_per_trade ++
      " > max_risk_per_trade_r " ++ fmt2 max_risk_per_trade_r)
  else if max_trades_per_day > 0 ∧
      (load_trading_state stored today).n_trades + 1 > max_trades_per_day then
    (false, "max_trades_per_day reached: " ++
      toString (load_trading_state stored today).n_trades ++
      " trades already opened today")
  else if max_daily_risk_r > 0 ∧
      (load_trading_state stored today).risk_used_r + assumed_r_per_trade
        > max_daily_risk_r then
    (false, "max_daily_risk_r reached: " ++
      fmt2 (load_trading_state stored today).risk_used_r ++
      "R used, limit " ++ fmt2 max_daily_risk_r ++ "R")
  else
    (true, "limits_ok")

/-- `update_trading_state_after_trade` (`src/trade/limits.py`): the state
written back after an accepted trade. -/
def update_trading_state_after_trade (assumed_r_per_trade : ℚ)
    (stored : StoredState) (today : String) : DailyTradingState :=
  let state := load_trading_state stored today
  { state with
    n_trades := state.n_trades + 1
    risk_used_r := state.risk_used_r + assumed_r_per_trade }

/-! ## Consensus Decision Engine — `decide_pair`, `src/app/main.py`

`decide_pair` receives the votes already normalised by `_normalize_votes`
into a dict `{name: (score, confidence, inputs_fresh)}`; we model that
dict as an association list with pairwise-distinct keys (hypothesis where
needed) in insertion order.  The environment-derived configuration
(`CRITICAL_AGENTS`, `TECH_DRIVER_LONG`, `TECH_DRIVER_SHORT`,
`TECH_VETO_SCORE_MIN`, `TECH_VETO_CONF_MIN`) is a `ConsensusCfg` record;
`defaultConsensusCfg` holds the source defaults. -/

/-- One normalised vote: `(score, conf, fresh)`. -/
structure Vote where
  score : ℚ
  confidence : ℚ
  inputs_fresh : Bool
  deriving DecidableEq, Repr

/-- The normalised votes dict `{name: (score, conf, fresh)}`. -/
abbrev VotesDict := List (String × Vote)

/-- The env-derived knobs of `decide_pair` with their source defaults. -/
structure ConsensusCfg where
  criticalAgents : List String
  techLongThr : ℚ
  techShortThr : ℚ
  vetoScoreMin : ℚ
  vetoConfMin : ℚ
  deriving DecidableEq, Repr

/-- Defaults: `CRITICAL_AGENTS="technical"`, `TECH_DRIVER_LONG=0.7`,
`TECH_DRIVER_SHORT=-0.6`, `TECH_VETO_SCORE_MIN=0.5`,
`TECH_VETO_CONF_MIN=0.5`. -/
def defaultConsensusCfg : ConsensusCfg := ⟨["technical"], 7/10, -(3/5), 1/2, 1/2⟩

/-- Python dict lookup `votes_dict.get(name)` (keys are distinct). -/
def lookupVote : VotesDict → String → Option Vote
  | [], _ => none
  | (n, v) :: rest, k => if n = k then some v else lookupVote rest k

/-- Python `weights.get(name, 0.0)`. -/
def weightOf : List (String × ℚ) → String → ℚ
  | [], _ => 0
  | (n, w) :: rest, k => if n = k then w else weightOf rest k

/-- The per-agent breakdown `[(name, score, conf), ...]` accumulated by the
fusion loop of `decide_pair`. -/
def voteBreakdown (votes : VotesDict) : List (String × ℚ × ℚ) :=
  votes.map (fun nv => (nv.1, nv.2.score, nv.2.confidence))

/-- Names collected into `critical_stale` by the fusion loop: agents that
are not fresh and belong to the critical set. -/
def criticalStaleList (critical : List String) (votes : VotesDict) :
    List String :=
  (votes.filter
    (fun nv => !nv.2.inputs_fresh && critical.contains nv.1)).map Prod.fst

/-- A vote enters the fusion sums iff it is fresh and `conf > 0` (the loop
`continue`s on stale votes — critical or optional — and on `conf <= 0`). -/
def voteIncluded (nv : String × Vote) : Bool :=
  nv.2.inputs_fresh && decide (0 < nv.2.confidence)

/-- `total_weight`: `Σ weight·confidence` over the included votes. -/
def fusionTotalWeight (weights : List (String × ℚ)) (votes : VotesDict) : ℚ :=
  ((votes.filter voteIncluded).map
    (fun nv => weightOf weights nv.1 * nv.2.confidence)).sum

/-- `weighted_sum`: `Σ score·(weight·confidence)` over the included votes. -/
def fusionWeightedSum (weights : List (String × ℚ)) (votes : VotesDict) : ℚ :=
  ((votes.filter voteIncluded).map
    (fun nv => nv.2.score * (weightOf weights nv.1 * nv.2.confidence))).sum

/-- The fused score `S`: `0` when `total_weight <= 0`, otherwise
`max(-1.0, min(1.0, weighted_sum / total_weight))`. -/
def fusedScore (weights : List (String × ℚ)) (votes : VotesDict) : ℚ :=
  if fusionTotalWeight weights votes ≤ 0 then 0
  else clamp (fusionWeightedSum weights votes / fusionTotalWeight weights votes)
    (-1) 1

/-- Directional proposal of the technical driver:
`score >= TECH_DRIVER_LONG → LONG`, else
`score <= TECH_DRIVER_SHORT → SHORT`, else none. -/
def proposalOf (cfg : ConsensusCfg) (tech_score : ℚ) : Option String :=
  if cfg.techLongThr ≤ tech_score then some "LONG"
  else if tech_score ≤ cfg.techShortThr then some "SHORT"
  else none

/-- The veto loop: every *other* agent that is fresh, has
`conf >= TECH_VETO_CONF_MIN` and `|score| >= TECH_VETO_SCORE_MIN` (the
loop `continue`s on `<`), and opposes the proposed direction
(`LONG` & `score < 0`, or `SHORT` & `score > 0`). -/
def vetoAgentsList (cfg : ConsensusCfg) (proposed : String)
    (votes : VotesDict) : List String :=
  (votes.filter (fun nv =>
    !(decide (nv.1 = "technical")) && nv.2.inputs_fresh &&
    !(decide (nv.2.confidence < cfg.vetoConfMin)) &&
    !(decide (|nv.2.score| < cfg.vetoScoreMin)) &&
    (if proposed = "LONG" then decide (nv.2.score < 0)
     else if proposed = "SHORT" then decide (0 < nv.2.score)
     else false))).map Prod.fst

/-- Insert a string into a sorted list (ascending). -/
def insertSorted (a : String) : List String → List String
  | [] => [a]
  | b :: l => if a ≤ b then a :: b :: l else b :: insertSorted a l

/-- Insertion sort on strings — models Python `sorted` on a set of
strings, whose result is the ascending list of the distinct elements. -/
def sortStrings : List String → List String
  | [] => []
  | a :: l => insertSorted a (sortStrings l)

/-- Python `sorted(set(xs))`. -/
def sortedUnique (xs : List String) : List String := sortStrings xs.dedup

/-- Python `",".join(xs)`. -/
def joinComma (xs : List String) : String := String.intercalate "," xs

/-- `decide_pair` (`src/app/main.py`, lines 406–520): two-stage logic —
critical-agent staleness gate, technical driver proposal, veto check — on
top of the always-computed fused score `S`.  `pair` and `thresholds` are
accepted and unused, exactly as in the source (the consensus thresholds
play no role in this decision function). -/
def decide_pair (pair : String) (votes_dict : VotesDict)
    (weights : List (String × ℚ)) (thresholds : List (String × ℚ))
    (cfg : ConsensusCfg) : ℚ × String × String × List (String × ℚ × ℚ) :=
  if votes_dict = [] then (0, "HOLD", "no votes", [])
  else if criticalStaleList cfg.criticalAgents votes_dict ≠ [] then
    (fusedScore weights votes_dict, "HOLD",
      "critical stale: " ++
        joinComma (sortedUnique (criticalStaleList cfg.criticalAgents votes_dict)),
      voteBreakdown votes_dict)
  else
    match lookupVote votes_dict "technical" with
    | none =>
        (fusedScore weights votes_dict, "HOLD", "no technical agent",
          voteBreakdown votes_dict)
    | some tech =>
        if tech.inputs_fresh = false then
          (fusedScore weights votes_dict, "HOLD", "critical stale: technical",
            voteBreakdown votes_dict)
        else
          match proposalOf cfg tech.score with
          | none =>
              (fusedScore weights votes_dict, "HOLD", "no technical edge",
                voteBreakdown votes_dict)
          | some dir =>
              if vetoAgentsList cfg dir votes_dict ≠ [] then
                (fusedScore weights votes_dict, "HOLD",
                  "veto by " ++
                    joinComma (sortedUnique (vetoAgentsList cfg dir votes_dict)),
                  voteBreakdown votes_dict)
              else
                (fusedScore weights votes_dict, dir,
                  "technical driver, no veto", voteBreakdown votes_dict)

/-! ### Association-list helper lemmas -/

theorem filter_eq_singleton_of_key (p : String × Vote → Bool)
    (votes : VotesDict) (v : Vote)
    (hnd : (votes.map Prod.fst).Nodup)
    (hmem : ("technical", v) ∈ votes)
    (hp : p ("technical", v) = true)
    (hkey : ∀ nv, p nv = true → nv.1 = "technical") :
    votes.filter p = [("technical", v)] := by
  induction votes with
  | nil => cases hmem
  | cons hd tl ih =>
      rw [List.map_cons, List.nodup_cons] at hnd
      obtain ⟨hhd, htl⟩ := hnd
      rcases List.mem_cons.mp hmem with heq | hmemtl
      · subst heq
        rw [List.filter_cons, if_pos hp]
        have : tl.filter p = [] := by
          apply List.filter_eq_nil_iff.mpr
          intro a ha hpa
          have hfst : a.1 = "technical" := hkey a hpa
          have hmm : a.1 ∈ tl.map Prod.fst := List.mem_map_of_mem Prod.fst ha
          rw [hfst] at hmm
          exact hhd hmm
        rw [this]
      · have hpf : p hd = false := by
          rcases Bool.eq_false_or_eq_true (p hd) with h | h
          swap
          · exact h
          · exfalso
            have hfst : hd.1 = "technical" := hkey hd h
            have hmm : ("technical" : String) ∈ tl.map Prod.fst :=
              List.mem_map_of_mem Prod.fst hmemtl
            rw [hfst] at hhd
            exact hhd hmm
        rw [List.filter_cons, hpf]
        simp only [Bool.false_eq_true, if_false]
        exact ih htl hmemtl

theorem mem_insertSorted (a b : String) (l : List String) :
    b ∈ insertSorted a l ↔ b = a ∨ b ∈ l := by
  induction l with
  | nil => simp [insertSorted]
  | cons c l ih =>
      unfold insertSorted
      split
      · simp [List.mem_cons]
      · simp only [List.mem_cons, ih]
        tauto

theorem mem_sortStrings (b : String) (l : List String) :
    b ∈ sortStrings l ↔ b ∈ l := by
  induction l with
  | nil => simp [sortStrings]
  | cons c l ih => simp [sortStrings, mem_insertSorted, ih]

theorem mem_sortedUnique (b : String) (l : List String) :
    b ∈ sortedUnique l ↔ b ∈ l := by
  rw [sortedUnique, mem_sortStrings, List.mem_dedup]

theorem lookupVote_of_mem (votes : VotesDict) (k : String) (v : Vote)
    (hnd : (votes.map Prod.fst).Nodup) (hmem : (k, v) ∈ votes) :
    lookupVote votes k = some v := by
  induction votes with
  | nil => cases hmem
  | cons hd tl ih =>
      rw [List.map_cons, List.nodup_cons] at hnd
      obtain ⟨hhd, htl⟩ := hnd
      rcases List.mem_cons.mp hmem with heq | hmemtl
      · subst heq
        unfold lookupVote
        rw [if_pos rfl]
      · obtain ⟨n, w⟩ := hd
        unfold lookupVote
        have hne : n ≠ k := by
          intro hnk
          subst hnk
          have hmm := List.mem_map_of_mem Prod.fst hmemtl
          exact hhd hmm
        rw [if_neg hne]
        exact ih htl hmemtl

/-! ## Claims C1, C5 -/

/-- **C1.** If the votes dict contains a technical vote with
`inputs_fresh = false` then — under the default configuration, where
`technical` is the sole critical agent — `decide_pair` returns decision
`HOLD` with reason `"critical stale: technical"`, whatever the other
votes, the weights and the thresholds are. -/
theorem consensus_stale_technical_holds (pair : String) (votes : VotesDict)
    (weights thresholds : List (String × ℚ)) (v : Vote)
    (hnd : (votes.map Prod.fst).Nodup)
    (hmem : ("technical", v) ∈ votes)
    (hstale : v.inputs_fresh = false) :
    (decide_pair pair votes weights thresholds defaultConsensusCfg).2.1
      = "HOLD"
    ∧ (decide_pair pair votes weights thresholds defaultConsensusCfg).2.2.1
      = "critical stale: technical" := by
  have hne : votes ≠ [] := by rintro rfl; cases hmem
  have hcrit : criticalStaleList defaultConsensusCfg.criticalAgents votes
      = ["technical"] := by
    show criticalStaleList ["technical"] votes = ["technical"]
    unfold criticalStaleList
    rw [filter_eq_singleton_of_key _ votes v hnd hmem
      (by rw [hstale]; rfl)
      (by
        intro nv h
        simp only [Bool.and_eq_true] at h
        have h2 := List.elem_iff.mp h.2
        simpa using h2)]
    rfl
  unfold decide_pair
  rw [if_neg hne, if_pos (by rw [hcrit]; exact List.cons_ne_nil _ _)]
  refine ⟨rfl, ?_⟩
  rw [hcrit]
  rfl

/-- Witness for C1 at a concrete vote set: a stale technical vote next to
a maximally confident, maximally bullish fresh news vote still yields
`HOLD` / `"critical stale: technical"`. -/
theorem consensus_stale_technical_holds_witness :
    (decide_pair "BTCUSDT"
      [("technical", ⟨1/2, 9/10, false⟩), ("news", ⟨1, 1, true⟩)]
      [("technical", 3/5), ("news", 1/5)] [("long", 3/5)]
      defaultConsensusCfg).2.1 = "HOLD"
    ∧ (decide_pair "BTCUSDT"
      [("technical", ⟨1/2, 9/10, false⟩), ("news", ⟨1, 1, true⟩)]
      [("technical", 3/5), ("news", 1/5)] [("long", 3/5)]
      defaultConsensusCfg).2.2.1 = "critical stale: technical" :=
  consensus_stale_technical_holds "BTCUSDT"
    [("technical", ⟨1/2, 9/10, false⟩), ("news", ⟨1, 1, true⟩)]
    [("technical", 3/5), ("news", 1/5)] [("long", 3/5)] ⟨1/2, 9/10, false⟩
    (by decide) (List.mem_cons_self _ _) rfl

/-- Modelled from the spec's words (§4.3 step 4), as the reference side of
the refinement claim C5: for every fresh agent with confidence > 0
accumulate `score·(weight·confidence)` and `weight·confidence`;
`S = clamp(Σ(score·eff_w)/Σ(eff_w), -1, 1)`, and `S = 0` when the
denominator is `≤ 0`. -/
def specFusedScore (weights : List (String × ℚ)) (votes : VotesDict) : ℚ :=
  if ((votes.filter (fun nv => nv.2.inputs_fresh && decide (0 < nv.2.confidence))).map
      (fun nv => weightOf weights nv.1 * nv.2.confidence)).sum ≤ 0 then 0
  else
    clamp
      (((votes.filter (fun nv => nv.2.inputs_fresh && decide (0 < nv.2.confidence))).map
          (fun nv => nv.2.score * (weightOf weights nv.1 * nv.2.confidence))).sum
        / ((votes.filter (fun nv => nv.2.inputs_fresh && decide (0 < nv.2.confidence))).map
          (fun nv => weightOf weights nv.1 * nv.2.confidence)).sum)
      (-1) 1

/-- **C5.** The score returned by `decide_pair` — in every branch, whatever
the decision is — equals the spec's fused-score formula (clamped weighted
mean over the fresh, positive-confidence agents, `0` on a non-positive
denominator), and always lies in `[-1, 1]`. -/
theorem consensus_fused_score_in_range (pair : String) (votes : VotesDict)
    (weights thresholds : List (String × ℚ)) (cfg : ConsensusCfg) :
    (decide_pair pair votes weights thresholds cfg).1
      = specFusedScore weights votes
    ∧ -1 ≤ (decide_pair pair votes weights thresholds cfg).1
    ∧ (decide_pair pair votes weights thresholds cfg).1 ≤ 1 := by
  have hspec : specFusedScore weights votes = fusedScore weights votes := rfl
  have heq : (decide_pair pair votes weights thresholds cfg).1
      = if votes = [] then 0 else fusedScore weights votes := by
    unfold decide_pair
    split
    · rfl
    · split
      · rfl
      · cases lookupVote votes "technical" with
        | none => rfl
        | some tech =>
            dsimp only
            split
            · rfl
            · cases proposalOf cfg tech.score with
              | none => rfl
              | some dir =>
                  dsimp only
                  split <;> rfl
  have hb : (-1 : ℚ) ≤ fusedScore weights votes
      ∧ fusedScore weights votes ≤ 1 := by
    unfold fusedScore
    split
    · norm_num
    · unfold clamp
      exact ⟨le_max_left _ _, max_le (by norm_num) (min_le_left _ _)⟩
  by_cases hv : votes = []
  · subst hv
    rw [heq, if_pos rfl, hspec]
    refine ⟨?_, by norm_num, by norm_num⟩
    unfold fusedScore fusionTotalWeight
    rw [if_pos (by simp)]
  · rw [heq, if_neg hv]
    exact ⟨hspec.symm, hb.1, hb.2⟩

/-! ## Claim C6 — the veto stage -/

/-- The claim's veto condition on a vote `nv`, for proposal `dir`: another
agent, fresh, confidence and `|score|` at or above the configured veto
minimums, sign opposing the proposal. -/
def OpposingVeto (cfg : ConsensusCfg) (dir : String) (nv : String × Vote) :
    Prop :=
  nv.1 ≠ "technical" ∧ nv.2.inputs_fresh = true ∧
  cfg.vetoConfMin ≤ nv.2.confidence ∧ cfg.vetoScoreMin ≤ |nv.2.score| ∧
  ((dir = "LONG" ∧ nv.2.score < 0) ∨ (dir = "SHORT" ∧ 0 < nv.2.score))

theorem vetoPred_iff (cfg : ConsensusCfg) (dir : String) (nv : String × Vote) :
    ((!(decide (nv.1 = "technical"))) && nv.2.inputs_fresh &&
     !(decide (nv.2.confidence < cfg.vetoConfMin)) &&
     !(decide (|nv.2.score| < cfg.vetoScoreMin)) &&
     (if dir = "LONG" then decide (nv.2.score < 0)
      else if dir = "SHORT" then decide (0 < nv.2.score)
      else false)) = true
    ↔ OpposingVeto cfg dir nv := by
  unfold OpposingVeto
  simp only [Bool.and_eq_true, Bool.not_eq_true', decide_eq_true_eq,
    decide_eq_false_iff_not, not_lt]
  constructor
  · rintro ⟨⟨⟨⟨h1, h2⟩, h3⟩, h4⟩, h5⟩
    refine ⟨h1, h2, h3, h4, ?_⟩
    split at h5
    · next hdir => exact Or.inl ⟨hdir, of_decide_eq_true h5⟩
    · split at h5
      · next _ hdir => exact Or.inr ⟨hdir, of_decide_eq_true h5⟩
      · cases h5
  · rintro ⟨h1, h2, h3, h4, hor⟩
    refine ⟨⟨⟨⟨h1, h2⟩, h3⟩, h4⟩, ?_⟩
    rcases hor with ⟨hdir, h5⟩ | ⟨hdir, h5⟩
    · rw [if_pos hdir]
      exact decide_eq_true h5
    · rw [hdir]
      rw [if_neg (by decide), if_pos rfl]
      exact decide_eq_true h5

theorem mem_vetoAgentsList (cfg : ConsensusCfg) (dir : String) (a : String)
    (votes : VotesDict) :
    a ∈ vetoAgentsList cfg dir votes
      ↔ ∃ nv ∈ votes, nv.1 = a ∧ OpposingVeto cfg dir nv := by
  unfold vetoAgentsList
  simp only [List.mem_map, List.mem_filter]
  constructor
  · rintro ⟨nv, ⟨hmem, hpred⟩, rfl⟩
    exact ⟨nv, hmem, rfl, (vetoPred_iff _ _ _).mp hpred⟩
  · rintro ⟨nv, hmem, rfl, hop⟩
    exact ⟨nv, ⟨hmem, (vetoPred_iff _ _ _).mpr hop⟩, rfl⟩

/-- **C6.** When the technical driver is present, fresh (so the critical
gate passes) and its score crosses a trigger threshold proposing `dir`:
if some other vote is fresh with confidence and `|score|` at or above the
veto minimums and an opposing sign, the decision is `HOLD` and the reason
is `"veto by "` followed by the sorted, de-duplicated names of exactly the
vetoing agents (each vetoing agent appears in it); with no such opposing
vote — in particular when the only opposing votes are stale — the decision
is the proposed direction with reason `"technical driver, no veto"`. -/
theorem consensus_veto_stage (pair : String) (votes : VotesDict)
    (weights thresholds : List (String × ℚ)) (cfg : ConsensusCfg)
    (v : Vote) (dir : String)
    (hnd : (votes.map Prod.fst).Nodup)
    (hmem : ("technical", v) ∈ votes)
    (hfresh : v.inputs_fresh = true)
    (hcrit : cfg.criticalAgents = ["technical"])
    (hprop : proposalOf cfg v.score = some dir) :
    ((∃ nv ∈ votes, OpposingVeto cfg dir nv) →
      (decide_pair pair votes weights thresholds cfg).2.1 = "HOLD"
      ∧ (decide_pair pair votes weights thresholds cfg).2.2.1
          = "veto by " ++ joinComma (sortedUnique (vetoAgentsList cfg dir votes))
      ∧ ∀ nv ∈ votes, OpposingVeto cfg dir nv →
          nv.1 ∈ sortedUnique (vetoAgentsList cfg dir votes))
    ∧ ((∀ nv ∈ votes, ¬OpposingVeto cfg dir nv) →
      (decide_pair pair votes weights thresholds cfg).2.1 = dir
      ∧ (decide_pair pair votes weights thresholds cfg).2.2.1
          = "technical driver, no veto") := by
  have hne : votes ≠ [] := by rintro rfl; cases hmem
  have hcritnil : criticalStaleList cfg.criticalAgents votes = [] := by
    rw [hcrit]
    unfold criticalStaleList
    rw [List.filter_eq_nil_iff.mpr ?_]
    · rfl
    · intro a ha hpa
      simp only [Bool.and_eq_true, Bool.not_eq_true'] at hpa
      obtain ⟨hstale, hcont⟩ := hpa
      have hkey : a.1 = "technical" := by
        have := List.elem_iff.mp hcont
        simpa using this
      have haeq : a = ("technical", v) :=
        List.inj_on_of_nodup_map hnd ha hmem hkey
      rw [haeq] at hstale
      rw [hfresh] at hstale
      cases hstale
  unfold decide_pair
  rw [if_neg hne, if_neg (by rw [hcritnil]; exact fun h => h rfl),
    lookupVote_of_mem votes "technical" v hnd hmem]
  dsimp only
  rw [if_neg (fun h => by rw [hfresh] at h; exact Bool.noConfusion h), hprop]
  dsimp only
  constructor
  · rintro ⟨nv, hmemnv, hop⟩
    have hvne : vetoAgentsList cfg dir votes ≠ [] := by
      intro hnil
      have hm : nv.1 ∈ vetoAgentsList cfg dir votes :=
        (mem_vetoAgentsList cfg dir nv.1 votes).mpr ⟨nv, hmemnv, rfl, hop⟩
      rw [hnil] at hm
      cases hm
    rw [if_pos hvne]
    exact ⟨rfl, rfl, fun nv' hm' hop' =>
      (mem_sortedUnique _ _).mpr
        ((mem_vetoAgentsList cfg dir nv'.1 votes).mpr ⟨nv', hm', rfl, hop'⟩)⟩
  · intro hnone
    have hvnil : vetoAgentsList cfg dir votes = [] := by
      apply List.eq_nil_iff_forall_not_mem.mpr
      intro a ha
      obtain ⟨nv, hm, -, hop⟩ := (mem_vetoAgentsList cfg dir a votes).mp ha
      exact hnone nv hm hop
    rw [if_neg (fun h => h hvnil)]
    exact ⟨rfl, rfl⟩

/-- Witness for C6: a fresh, strongly-opposed news vote vetoes a LONG
proposal (`HOLD`, reason `"veto by news"`); the same news vote marked
stale does not veto, and the decision is `LONG` with reason
`"technical driver, no veto"`. -/
theorem consensus_veto_stage_witness :
    (decide_pair "BTCUSDT"
      [("technical", ⟨4/5, 9/10, true⟩), ("news", ⟨-(3/5), 4/5, true⟩)]
      [("technical", 3/5)] [] defaultConsensusCfg).2.1 = "HOLD"
    ∧ (decide_pair "BTCUSDT"
      [("technical", ⟨4/5, 9/10, true⟩), ("news", ⟨-(3/5), 4/5, true⟩)]
      [("technical", 3/5)] [] defaultConsensusCfg).2.2.1 = "veto by news"
    ∧ (decide_pair "BTCUSDT"
      [("technical", ⟨4/5, 9/10, true⟩), ("news", ⟨-(3/5), 4/5, false⟩)]
      [("technical", 3/5)] [] defaultConsensusCfg).2.1 = "LONG"
    ∧ (decide_pair "BTCUSDT"
      [("technical", ⟨4/5, 9/10, true⟩), ("news", ⟨-(3/5), 4/5, false⟩)]
      [("technical", 3/5)] [] defaultConsensusCfg).2.2.1
        = "technical driver, no veto" := by
  have hprop : proposalOf defaultConsensusCfg (4/5 : ℚ) = some "LONG" := by
    unfold proposalOf
    rw [if_pos (show defaultConsensusCfg.techLongThr ≤ 4/5 by
      show (7/10 : ℚ) ≤ 4/5
      norm_num)]
  have h1 := consensus_veto_stage "BTCUSDT"
    [("technical", ⟨4/5, 9/10, true⟩), ("news", ⟨-(3/5), 4/5, true⟩)]
    [("technical", 3/5)] [] defaultConsensusCfg ⟨4/5, 9/10, true⟩ "LONG"
    (by decide) (List.mem_cons_self _ _) rfl rfl hprop
  have h2 := consensus_veto_stage "BTCUSDT"
    [("technical", ⟨4/5, 9/10, true⟩), ("news", ⟨-(3/5), 4/5, false⟩)]
    [("technical", 3/5)] [] defaultConsensusCfg ⟨4/5, 9/10, true⟩ "LONG"
    (by decide) (List.mem_cons_self _ _) rfl rfl hprop
  have hopp : OpposingVeto defaultConsensusCfg "LONG"
      ("news", ⟨-(3/5), 4/5, true⟩) := by
    refine ⟨by decide, rfl, ?_, ?_, Or.inl ⟨rfl, by norm_num⟩⟩
    · show (1/2 : ℚ) ≤ 4/5
      norm_num
    · show (1/2 : ℚ) ≤ |(-(3/5) : ℚ)|
      rw [abs_neg, abs_of_pos (by norm_num)]
      norm_num
  have hlist : vetoAgentsList defaultConsensusCfg "LONG"
      [("technical", ⟨4/5, 9/10, true⟩), ("news", ⟨-(3/5), 4/5, true⟩)]
      = ["news"] := by
    unfold vetoAgentsList
    rw [List.filter_cons, List.filter_cons, List.filter_nil,
      if_neg (fun h => ((vetoPred_iff _ _ _).mp h).1 rfl),
      if_pos ((vetoPred_iff _ _ _).mpr hopp)]
    rfl
  obtain ⟨ha, hb, -⟩ := h1.1 ⟨("news", ⟨-(3/5), 4/5, true⟩),
    List.mem_cons_of_mem _ (List.mem_cons_self _ _), hopp⟩
  have hnone : ∀ nv ∈ ([("technical", ⟨4/5, 9/10, true⟩),
      ("news", ⟨-(3/5), 4/5, false⟩)] : VotesDict),
      ¬OpposingVeto defaultConsensusCfg "LONG" nv := by
    intro nv hm hop
    rcases List.mem_cons.mp hm with rfl | hm2
    · exact hop.1 rfl
    · rcases List.mem_cons.mp hm2 with rfl | hm3
      · cases hop.2.1
      · cases hm3
  obtain ⟨hc, hd⟩ := h2.2 hnone
  refine ⟨ha, ?_, hc, hd⟩
  rw [hb, hlist]
  rfl

/-! ## Indicator Library — `src/core/indicators.py` (build/lib) -/

/-- `ema(prices, period)`: empty when `period <= 0` (here `period = 0`,
since the callers pass positive literals) or when the series is shorter
than `period`; otherwise the simple average of the first `period` values
followed by exponential smoothing with `k = 2/(period+1)` over the rest
(the source's `out = [sma]; out.append(p*k + prev*(1-k))` loop is a left
scan). -/
def ema (prices : List ℚ) (period : ℕ) : List ℚ :=
  if period = 0 ∨ prices.length < period then []
  else
    List.scanl
      (fun e p => p * (2 / (period + 1)) + e * (1 - 2 / (period + 1)))
      ((prices.take period).sum / period) (prices.drop period)

/-- The list `prices[i] - prices[i-1]` of consecutive differences — the
loop `for i in range(-period, 0)` of `rsi` runs over the trailing
`period` of these. -/
def consecutiveDiffs : List ℚ → List ℚ
  | a :: b :: rest => (b - a) :: consecutiveDiffs (b :: rest)
  | _ => []

/-- `rsi(prices, period)`: `None` on insufficient length; `100.0` when the
average loss is zero; otherwise `100 - 100/(1+rs)` over the trailing
`period` differences. -/
def rsi (prices : List ℚ) (period : ℕ) : Option ℚ :=
  if prices.length < period + 1 then none
  else
    if ((consecutiveDiffs (prices.drop (prices.length - (period + 1)))).map
        (fun d => max (-d) 0)).sum / period = 0 then some 100
    else
      some (100 - 100 /
        (1 + (((consecutiveDiffs (prices.drop (prices.length - (period + 1)))).map
            (fun d => max d 0)).sum / period)
          / (((consecutiveDiffs (prices.drop (prices.length - (period + 1)))).map
            (fun d => max (-d) 0)).sum / period)))

/-- The true-range list of `atr`:
`tr_i = max(h_i - l_i, |h_i - c_{i-1}|, |l_i - c_{i-1}|)` for
`i = 1 .. n-1`. -/
def trList : List ℚ → List ℚ → List ℚ → List ℚ
  | _ :: h2 :: hs, _ :: l2 :: ls, c1 :: c2 :: cs =>
      max (h2 - l2) (max |h2 - c1| |l2 - c1|)
        :: trList (h2 :: hs) (l2 :: ls) (c2 :: cs)
  | _, _, _ => []

/-- `atr(highs, lows, closes, period)`: `None` on length mismatch or
insufficient history, else the mean of the last `period` true ranges. -/
def atr (highs lows closes : List ℚ) (period : ℕ) : Option ℚ :=
  if closes.length < period + 1 ∨ closes.length ≠ highs.length
      ∨ closes.length ≠ lows.length then none
  else
    if (trList highs lows closes).length < period then none
    else
      some ((((trList highs lows closes).drop
        ((trList highs lows closes).length - period)).sum) / period)

/-! ## Technical Scoring Agent — `TechnicalAgent.run`, `src/agents/technical.py`

The agent's `latency_ms` output field (a wall-clock latency measurement)
is metadata not consumed by any caller of interest and is not modelled;
all other output fields are. -/

/-- A candle dict `{t, o, h, low, c, v}` as consumed by the agent and the
backtest loop (note the source's key `"low"`). -/
structure Candle where
  t : ℤ
  o : ℚ
  h : ℚ
  low : ℚ
  c : ℚ
  v : ℚ
  deriving DecidableEq, Repr

/-- The agent output dict (minus the unmodelled `latency_ms`). -/
structure AgentResult where
  pair : String
  score : ℚ
  confidence : ℚ
  explanation : String
  inputs_fresh : Bool
  deriving DecidableEq, Repr

/-- Zero-left-padded decimal rendering of `a` to at least `n` digits. -/
def padZeros (a : ℕ) (n : ℕ) : String :=
  ⟨List.replicate (n - (toString a).length) '0'⟩ ++ toString a

/-- Python `f"{x:.mf}"`: fixed-point rendering with `m` decimals
(round-half-even, as CPython renders shortest-round decimals). -/
def fmtFixed (x : ℚ) (m : ℕ) : String :=
  (if roundHalfEven (x * (10:ℚ)^m) < 0 then "-" else "") ++
    toString ((roundHalfEven (x * (10:ℚ)^m)).natAbs / 10^m) ++ "." ++
    padZeros ((roundHalfEven (x * (10:ℚ)^m)).natAbs % 10^m) m

/-- Python `f"{x:+.mf}"`: as `fmtFixed` with an explicit plus sign. -/
def fmtPlusFixed (x : ℚ) (m : ℕ) : String :=
  (if roundHalfEven (x * (10:ℚ)^m) < 0 then "" else "+") ++ fmtFixed x m

/-- Normalised ATR-trend (`trend_raw` clamped to `[-3,3]`, scaled to
`[-1,1]`); `TREND_K = 1.5` and the `max(1e-9, ...)` guard are from the
source. -/
def techTrendNorm (price ema200 atr14 : ℚ) : ℚ :=
  clamp ((price - ema200) / max (1/1000000000) (atr14 * (3/2))) (-3) 3 / 3

/-- Trend deadzone: `|trend_norm| < 0.25` is attenuated by `0.2`, larger
values are clamped to `[-1,1]`. -/
def techTrendEffective (price ema200 atr14 : ℚ) : ℚ :=
  if |techTrendNorm price ema200 atr14| < 1/4 then
    techTrendNorm price ema200 atr14 * (1/5)
  else clamp (techTrendNorm price ema200 atr14) (-1) 1

/-- Dual-RSI band signal, clamped to `[-1,1]`. -/
def techRsiSig (rsi_fast rsi_slow : ℚ) : ℚ :=
  clamp
    (if rsi_fast < 28 ∧ rsi_slow < 45 then 7/10
     else if rsi_fast < 35 ∧ rsi_slow < 50 then 3/10
     else if rsi_fast > 72 ∧ rsi_slow > 55 then -(7/10)
     else if rsi_fast > 65 ∧ rsi_slow > 50 then -(3/10)
     else 0) (-1) 1

/-- Volatility regime from `atr_pct`: `< 0.002` ultra_low, `< 0.008` low,
`> 0.06` high, else normal. -/
def techVolRegime (atr_pct : ℚ) : String :=
  if atr_pct < 1/500 then "ultra_low"
  else if atr_pct < 1/125 then "low"
  else if atr_pct > 3/50 then "high"
  else "normal"

/-- Trend weight `0.8`, scaled by the volatility regime. -/
def techWTrend (regime : String) : ℚ :=
  if regime = "ultra_low" then 4/5 * (2/5)
  else if regime = "low" then 4/5 * (4/5)
  else 4/5

/-- RSI weight `0.2`, scaled by the volatility regime. -/
def techWRsi (regime : String) : ℚ :=
  if regime = "ultra_low" then 1/5 * (2/5)
  else if regime = "low" then 1/5 * (4/5)
  else if regime = "high" then 1/5 * (7/10)
  else 1/5

/-- The weighted score clamped to `[-1,1]`, before the score deadzone. -/
def techScoreClamped (price ema200 rsi_fast rsi_slow atr14 : ℚ) : ℚ :=
  clamp
    (techWTrend (techVolRegime (atr14 / price))
        * techTrendEffective price ema200 atr14
      + techWRsi (techVolRegime (atr14 / price)) * techRsiSig rsi_fast rsi_slow)
    (-1) 1

/-- Final score: flattened to `0` inside the score deadzone
(`|score| < 0.15`). -/
def techScore (price ema200 rsi_fast rsi_slow atr14 : ℚ) : ℚ :=
  if |techScoreClamped price ema200 rsi_fast rsi_slow atr14| < 3/20 then 0
  else techScoreClamped price ema200 rsi_fast rsi_slow atr14

/-- Confidence: baseline `0.9`, penalised by the volatility regime and by
`inputs_fresh = false`, clamped to `[0.1, 0.95]`. -/
def techConf (regime : String) (inputs_fresh : Bool) : ℚ :=
  clamp
    (9/10
      - (if regime = "ultra_low" then 2/5
         else if regime = "low" then 3/20
         else if regime = "high" then 1/4
         else 0)
      - (if inputs_fresh then 0 else 3/20))
    (1/10) (19/20)

/-- The success-path explanation f-string. -/
def techExpl (price ema200 atr_pct trend_raw trend_norm trend_eff
    rsi_fast rsi_slow rsi_sig : ℚ) (vol_regime : String)
    (w_trend w_rsi : ℚ) : String :=
  "price=" ++ fmtFixed price 4 ++ ", ema200=" ++ fmtFixed ema200 4 ++
  ", atr%=" ++ fmtFixed (atr_pct * 100) 2 ++
  ", trend_raw=" ++ fmtFixed trend_raw 2 ++
  ", trend_norm=" ++ fmtFixed trend_norm 2 ++
  ", trend_eff=" ++ fmtFixed trend_eff 2 ++
  ", rsi_fast=" ++ fmtFixed rsi_fast 1 ++
  ", rsi_slow=" ++ fmtFixed rsi_slow 1 ++
  ", rsi_sig=" ++ fmtPlusFixed rsi_sig 2 ++
  ", vol_regime=" ++ vol_regime ++
  ", w_trend=" ++ fmtFixed w_trend 2 ++ ", w_rsi=" ++ fmtFixed w_rsi 2

/-- `TechnicalAgent.run` (`src/agents/technical.py`):
`min_len = max(EMA_LEN, RSI_SLOW_LEN, ATR_LEN) + 10 = 210`; every
insufficiency path returns the neutral result `(0.0, 0.2)` with an
explanatory string instead of raising. -/
def TechnicalAgent.run (pair : String) (candles : List Candle)
    (inputs_fresh : Bool) : AgentResult :=
  if candles.length < 210 then
    ⟨pair, 0, 1/5, "insufficient candles", inputs_fresh⟩
  else
    match (ema (candles.map (fun c => c.c)) 200).getLast? with
    | none => ⟨pair, 0, 1/5, "ema200 none", inputs_fresh⟩
    | some ema200 =>
        match rsi (candles.map (fun c => c.c)) 14,
            rsi (candles.map (fun c => c.c)) 50,
            atr (candles.map (fun c => c.h)) (candles.map (fun c => c.low))
              (candles.map (fun c => c.c)) 14 with
        | some rsi_fast, some rsi_slow, some atr14 =>
            -- price = float(closes[-1]); nonempty since length ≥ 210
            if (candles.map (fun c => c.c)).getLastD 0 ≤ 0 ∨ atr14 ≤ 0 then
              ⟨pair, 0, 1/5, "invalid price/atr", inputs_fresh⟩
            else
              ⟨pair,
                techScore ((candles.map (fun c => c.c)).getLastD 0) ema200
                  rsi_fast rsi_slow atr14,
                techConf
                  (techVolRegime (atr14 / (candles.map (fun c => c.c)).getLastD 0))
                  inputs_fresh,
                techExpl ((candles.map (fun c => c.c)).getLastD 0) ema200
                  (atr14 / (candles.map (fun c => c.c)).getLastD 0)
                  (((candles.map (fun c => c.c)).getLastD 0 - ema200)
                    / max (1/1000000000) (atr14 * (3/2)))
                  (techTrendNorm ((candles.map (fun c => c.c)).getLastD 0)
                    ema200 atr14)
                  (techTrendEffective ((candles.map (fun c => c.c)).getLastD 0)
                    ema200 atr14)
                  rsi_fast rsi_slow (techRsiSig rsi_fast rsi_slow)
                  (techVolRegime
                    (atr14 / (candles.map (fun c => c.c)).getLastD 0))
                  (techWTrend (techVolRegime
                    (atr14 / (candles.map (fun c => c.c)).getLastD 0)))
                  (techWRsi (techVolRegime
                    (atr14 / (candles.map (fun c => c.c)).getLastD 0))),
                inputs_fresh⟩
        | _, _, _ => ⟨pair, 0, 1/5, "indicator None", inputs_fresh⟩

/-! ## Claim C9 — the agent degrades instead of raising -/

theorem scanl_ne_nil (f : ℚ → ℚ → ℚ) (b : ℚ) (l : List ℚ) :
    List.scanl f b l ≠ [] := by
  cases l <;> simp [List.scanl]

theorem ema_getLast_ne_none (prices : List ℚ) (period : ℕ)
    (h0 : period ≠ 0) (hlen : period ≤ prices.length) :
    (ema prices period).getLast? ≠ none := by
  unfold ema
  rw [if_neg (by push_neg; exact ⟨h0, hlen⟩)]
  intro hc
  obtain ⟨a, l', hl⟩ := List.exists_cons_of_ne_nil (scanl_ne_nil _ _ _)
  rw [hl] at hc
  simp at hc

theorem rsi_ne_none (prices : List ℚ) (period : ℕ)
    (h : period + 1 ≤ prices.length) : rsi prices period ≠ none := by
  unfold rsi
  rw [if_neg (not_lt.mpr h)]
  split <;> simp

theorem trList_length (cs : List ℚ) : ∀ (hs ls : List ℚ),
    hs.length = cs.length → ls.length = cs.length →
    (trList hs ls cs).length = cs.length - 1 := by
  induction cs with
  | nil =>
      intro hs ls h1 h2
      rw [List.length_nil, List.length_eq_zero] at h1 h2
      subst h1; subst h2
      rfl
  | cons c cs' ih =>
      intro hs ls h1 h2
      cases cs' with
      | nil =>
          rw [List.length_singleton, List.length_eq_one] at h1 h2
          obtain ⟨a, rfl⟩ := h1
          obtain ⟨b, rfl⟩ := h2
          rfl
      | cons c2 cs'' =>
          match hs, h1 with
          | a1 :: a2 :: hs', h1 =>
          match ls, h2 with
          | b1 :: b2 :: ls', h2 =>
          show (trList (a2 :: hs') (b2 :: ls') (c2 :: cs'')).length + 1 = _
          rw [ih (a2 :: hs') (b2 :: ls') (by simpa using h1) (by simpa using h2)]
          simp

theorem atr_ne_none (highs lows closes : List ℚ) (period : ℕ)
    (hlen : period + 1 ≤ closes.length)
    (hh : closes.length = highs.length) (hl : closes.length = lows.length) :
    atr highs lows closes period ≠ none := by
  unfold atr
  rw [if_neg (by push_neg; exact ⟨hlen, hh, hl⟩),
    if_neg (by rw [trList_length closes highs lows hh.symm hl.symm]; omega)]
  simp

/-- **C9.** The technical agent's `run` is total (the embedding needs no
error monad: every path returns a result): a window shorter than the
210-candle minimum yields exactly score `0.0`, confidence `0.2` and the
explanation `"insufficient candles"`; and on every input either the agent
degrades to the neutral `(0.0, 0.2)` result or the window was long enough
that `ema`, both `rsi`s and `atr` all returned a value (so an indicator
`None` can never propagate as an exception). -/
theorem technical_agent_degrades (pair : String) (candles : List Candle)
    (fresh : Bool) :
    (candles.length < 210 →
      TechnicalAgent.run pair candles fresh
        = ⟨pair, 0, 1/5, "insufficient candles", fresh⟩)
    ∧ (((TechnicalAgent.run pair candles fresh).score = 0
          ∧ (TechnicalAgent.run pair candles fresh).confidence = 1/5)
        ∨ (210 ≤ candles.length
          ∧ (ema (candles.map (fun c => c.c)) 200).getLast? ≠ none
          ∧ rsi (candles.map (fun c => c.c)) 14 ≠ none
          ∧ rsi (candles.map (fun c => c.c)) 50 ≠ none
          ∧ atr (candles.map (fun c => c.h)) (candles.map (fun c => c.low))
              (candles.map (fun c => c.c)) 14 ≠ none)) := by
  by_cases hlen : candles.length < 210
  · have hres : TechnicalAgent.run pair candles fresh
        = ⟨pair, 0, 1/5, "insufficient candles", fresh⟩ := by
      unfold TechnicalAgent.run
      rw [if_pos hlen]
    exact ⟨fun _ => hres, Or.inl ⟨by rw [hres], by rw [hres]⟩⟩
  · push_neg at hlen
    refine ⟨fun h => absurd h (not_lt.mpr hlen), Or.inr ⟨hlen, ?_, ?_, ?_, ?_⟩⟩
    · exact ema_getLast_ne_none _ 200 (by norm_num)
        (by rw [List.length_map]; omega)
    · exact rsi_ne_none _ 14 (by rw [List.length_map]; omega)
    · exact rsi_ne_none _ 50 (by rw [List.length_map]; omega)
    · exact atr_ne_none _ _ _ 14 (by rw [List.length_map]; omega)
        (by rw [List.length_map, List.length_map])
        (by rw [List.length_map, List.length_map])

/-- Witness for C9: the empty window returns the neutral result. -/
theorem technical_agent_degrades_witness :
    TechnicalAgent.run "BTCUSDT" [] true
      = ⟨"BTCUSDT", 0, 1/5, "insufficient candles", true⟩ :=
  (technical_agent_degrades "BTCUSDT" [] true).1 (by norm_num)

/-! ## Backtest Simulation Engine — `simulate_backtest`, `src/backtest/core.py`

`simulate_backtest` calls `src.app.main.run_once(single_pair, override_price,
backtest_mode=True)` on every candle and reads `score`, `decision` and
`breakdown` from the single result.  `run_once` is effectful: it reads the
wall clock (`datetime.now` for `asof` and inside `_is_fresh`) and the data
store (`get_ohlcv` rows), and with the shipped `load_all_agents` the vote
set consists of the TechnicalAgent's vote alone.  We model the world
observed by one `run_once` call as a `BtEnv` record and the simulation as
receiving the environment trace `envs : ℕ → BtEnv` (the world at each
iteration); the signal-relevant slice of `run_once`/`collect_votes` is
`runOnceSignal`. -/

/-- One OHLCV row as returned by the data store (`get_ohlcv`); only the
seven leading fields matter, `tMs` is the open time in milliseconds. -/
structure BtRow where
  tMs : ℤ
  o : ℚ
  h : ℚ
  low : ℚ
  c : ℚ
  v : ℚ
  deriving DecidableEq, Repr

/-- `_rows_to_tech_candles` row conversion: `t = int(r[0]) // 1000` (floor
division) and the five floats. -/
def rowToCandle (r : BtRow) : Candle :=
  ⟨r.tMs.fdiv 1000, r.o, r.h, r.low, r.c, r.v⟩

/-- The world observed by one `run_once` call: the wall clock (epoch
seconds), the stored rows for the pair, the effective weights, the
consensus thresholds, the env-derived consensus knobs and the freshness
configuration (`max_input_age_sec` and the interval length in seconds). -/
structure BtEnv where
  now : ℚ
  rows : List BtRow
  weights : List (String × ℚ)
  thresholds : List (String × ℚ)
  cfg : ConsensusCfg
  maxAgeSec : ℚ
  intervalSec : ℚ
  deriving Repr

/-- `_effective_freshness_sec`: `max(max_age_sec, 2 * interval_seconds)`. -/
def effFreshnessSec (env : BtEnv) : ℚ := max env.maxAgeSec (2 * env.intervalSec)

/-- `_is_fresh(ts, max_age)`: `False` for a missing timestamp, else
`now - ts <= max_age`; the wall-clock `now` is passed explicitly. -/
def isFresh (ts : Option ℚ) (now maxAge : ℚ) : Bool :=
  match ts with
  | none => false
  | some t => decide (now - t ≤ maxAge)

/-- `_latest_ts_from_rows`: `rows[-1][0] / 1000.0`. -/
def latestTsFromRows (rows : List BtRow) : Option ℚ :=
  rows.getLast?.map (fun r => (r.tMs : ℚ) / 1000)

/-- The technical vote produced by `collect_votes` for a pair with stored
rows: the agent runs on the converted candles with
`inputs_fresh = _is_fresh(latest_ts, effective_max_age)`. -/
def techVote (env : BtEnv) (pair : String) : Vote :=
  ⟨(TechnicalAgent.run pair (env.rows.map rowToCandle)
      (isFresh (latestTsFromRows env.rows) env.now (effFreshnessSec env))).score,
   (TechnicalAgent.run pair (env.rows.map rowToCandle)
      (isFresh (latestTsFromRows env.rows) env.now (effFreshnessSec env))).confidence,
   (TechnicalAgent.run pair (env.rows.map rowToCandle)
      (isFresh (latestTsFromRows env.rows) env.now (effFreshnessSec env))).inputs_fresh⟩

/-- `collect_votes` for a single-pair universe, already in the normalised
form consumed by `decide_pair`: no rows → no candles → no votes; otherwise
exactly the technical vote (with the shipped `load_all_agents` the agent
list is `[TechnicalAgent()]`). -/
def collectVotesSingle (env : BtEnv) (pair : String) : VotesDict :=
  if env.rows = [] then []
  else [("technical", techVote env pair)]

/-- The triple `(score, decision, breakdown)` that `simulate_backtest`
extracts from the single `run_once` result:
`score = round(S, 6)`, plus the decision and breakdown of `decide_pair`. -/
structure SigRes where
  score : ℚ
  decision : String
  breakdown : List (String × ℚ × ℚ)
  deriving DecidableEq, Repr

/-- The signal-relevant slice of `run_once(single_pair=pair,
backtest_mode=True)` in environment `env`. -/
def runOnceSignal (env : BtEnv) (pair : String) : SigRes :=
  ⟨pyRound (decide_pair pair (collectVotesSingle env pair) env.weights
      env.thresholds env.cfg).1 6,
   (decide_pair pair (collectVotesSingle env pair) env.weights
      env.thresholds env.cfg).2.1,
   (decide_pair pair (collectVotesSingle env pair) env.weights
      env.thresholds env.cfg).2.2.2⟩

/-- `decision = str(res.get("decision") or "HOLD").upper()`. -/
def btDecision (res : SigRes) : String :=
  sUpper (if res.decision = "" then "HOLD" else res.decision)

/-- An open simulated trade (`open_trade` dict of `simulate_backtest`). -/
structure BtOpenTrade where
  pair : String
  side : String
  entry : ℚ
  stop_loss : ℚ
  take_profit : ℚ
  entry_idx : ℕ
  entry_ts : ℤ
  entry_score : ℚ
  breakdown : List (String × ℚ × ℚ)
  deriving DecidableEq, Repr

/-- A closed simulated trade: the open dict extended by the exit fields. -/
structure BtClosedTrade where
  base : BtOpenTrade
  exit_idx : ℕ
  exit_ts : ℤ
  exit : ℚ
  pnl_r : ℚ
  deriving DecidableEq, Repr

/-- One iteration of the `simulate_backtest` loop body, after the signal
for this candle is known: the score filter (`continue` when
`|score| < score_min`), the opening branch (flat and LONG/SHORT), and the
SL-before-TP management of an open position (`risk_pct=0.01` as in the
source).  Returns the new `open_trade` and an optional closed trade to
append. -/
def btStep (pair : String) (score_min rr sl_pct : ℚ) (res : SigRes)
    (idx : ℕ) (candle : Candle) (open_trade : Option BtOpenTrade) :
    Option BtOpenTrade × Option BtClosedTrade :=
  if |res.score| < score_min then (open_trade, none)
  else if (btDecision res = "LONG" ∨ btDecision res = "SHORT")
      ∧ open_trade = none then
    match compute_order_levels (btDecision res) candle.c (1/100) rr sl_pct with
    | some ol =>
        (some ⟨pair, btDecision res, ol.entry, ol.stop_loss, ol.take_profit,
          idx, candle.t, res.score, res.breakdown⟩, none)
    | none => (open_trade, none)
  else
    match open_trade with
    | none => (none, none)
    | some tr =>
        if tr.side = "LONG" then
          if candle.low ≤ tr.stop_loss then
            (none, some ⟨tr, idx, candle.t, tr.stop_loss, -1⟩)
          else if tr.take_profit ≤ candle.h then
            (none, some ⟨tr, idx, candle.t, tr.take_profit, rr⟩)
          else (some tr, none)
        else
          if tr.stop_loss ≤ candle.h then
            (none, some ⟨tr, idx, candle.t, tr.stop_loss, -1⟩)
          else if candle.low ≤ tr.take_profit then
            (none, some ⟨tr, idx, candle.t, tr.take_profit, rr⟩)
          else (some tr, none)

/-- The candle loop of `simulate_backtest`: each iteration invokes
`run_once` (observing the world `envs idx`) and processes the candle;
closed trades are appended in order, an unfinished open trade is dropped
at the end exactly as in the source. -/
def btLoop (pair : String) (score_min rr sl_pct : ℚ) (envs : ℕ → BtEnv) :
    List Candle → ℕ → Option BtOpenTrade → List BtClosedTrade →
    List BtClosedTrade
  | [], _, _, acc => acc
  | c :: rest, idx, open_trade, acc =>
      match btStep pair score_min rr sl_pct (runOnceSignal (envs idx) pair)
          idx c open_trade with
      | (o2, some closed) =>
          btLoop pair score_min rr sl_pct envs rest (idx + 1) o2 (acc ++ [closed])
      | (o2, none) =>
          btLoop pair score_min rr sl_pct envs rest (idx + 1) o2 acc

/-- The aggregate dict returned by `simulate_backtest`. -/
structure BtResult where
  pair : String
  n_trades : ℕ
  wins : ℕ
  losses : ℕ
  winrate : Option ℚ
  pf : Option ℚ
  expectancy : Option ℚ
  trades : List BtClosedTrade
  deriving DecidableEq, Repr

/-- The aggregation step of `simulate_backtest`: wins/losses counts,
`winrate = wins/n`, `pf = gross_profit/gross_loss` (`None` when there is
no losing trade), `expectancy = Σ pnl_r / n`; all `None` when no trade
closed. -/
def btAggregate (pair : String) (trades : List BtClosedTrade) : BtResult :=
  ⟨pair, trades.length,
   (trades.filter (fun t => decide (0 < t.pnl_r))).length,
   (trades.filter (fun t => decide (t.pnl_r < 0))).length,
   if trades.length = 0 then none
   else some
     (((trades.filter (fun t => decide (0 < t.pnl_r))).length : ℚ)
       / trades.length),
   if trades.length = 0 then none
   else if 0 < -(((trades.filter (fun t => decide (t.pnl_r < 0))).map
       (fun t => t.pnl_r)).sum) then
     some ((((trades.filter (fun t => decide (0 < t.pnl_r))).map
         (fun t => t.pnl_r)).sum)
       / (-(((trades.filter (fun t => decide (t.pnl_r < 0))).map
         (fun t => t.pnl_r)).sum)))
   else none,
   if trades.length = 0 then none
   else some ((trades.map (fun t => t.pnl_r)).sum / trades.length),
   trades⟩

/-- `simulate_backtest(pair, candles, score_min, rr, sl_pct)` under the
environment trace `envs` (defaults in the source: `score_min=0.0`,
`rr=1.5`, `sl_pct=0.004`). -/
def simulate_backtest (envs : ℕ → BtEnv) (pair : String)
    (candles : List Candle) (score_min rr sl_pct : ℚ) : BtResult :=
  btAggregate pair (btLoop pair score_min rr sl_pct envs candles 0 none [])

/-! ## Claim C3 — stop-loss is checked before take-profit -/

/-- **C3 (amended).** On any candle on which the simulation loop reaches
the SL/TP management of an open position (the signal passed the score
filter, `¬(|score| < score_min)`), the stop-loss crossing is checked
before the take-profit crossing for both sides: a LONG candle with
`low ≤ SL` closes as SL with `pnl_r = -1.0` and `exit = SL` even when it
also has `high ≥ TP`; a TP close (requiring `¬(low ≤ SL)`) always records
`pnl_r = +rr`; symmetrically for SHORT (`high ≥ SL` dominates
`low ≤ TP`).  Candles (or missing signals) filtered out by
`|score| < score_min` never reach this management — see the
counterexample for why the unconditional per-candle check of the original
claim fails. -/
theorem backtest_sl_before_tp (pair : String) (score_min rr sl_pct : ℚ)
    (res : SigRes) (idx : ℕ) (candle : Candle) (tr : BtOpenTrade)
    (hsc : ¬(|res.score| < score_min)) :
    (tr.side = "LONG" → candle.low ≤ tr.stop_loss →
      btStep pair score_min rr sl_pct res idx candle (some tr)
        = (none, some ⟨tr, idx, candle.t, tr.stop_loss, -1⟩))
    ∧ (tr.side = "LONG" → ¬(candle.low ≤ tr.stop_loss) →
        tr.take_profit ≤ candle.h →
      btStep pair score_min rr sl_pct res idx candle (some tr)
        = (none, some ⟨tr, idx, candle.t, tr.take_profit, rr⟩))
    ∧ (tr.side ≠ "LONG" → tr.stop_loss ≤ candle.h →
      btStep pair score_min rr sl_pct res idx candle (some tr)
        = (none, some ⟨tr, idx, candle.t, tr.stop_loss, -1⟩))
    ∧ (tr.side ≠ "LONG" → ¬(tr.stop_loss ≤ candle.h) →
        candle.low ≤ tr.take_profit →
      btStep pair score_min rr sl_pct res idx candle (some tr)
        = (none, some ⟨tr, idx, candle.t, tr.take_profit, rr⟩)) := by
  have hopen : ¬((btDecision res = "LONG" ∨ btDecision res = "SHORT")
      ∧ (some tr : Option BtOpenTrade) = none) := by
    rintro ⟨-, h⟩
    cases h
  refine ⟨?_, ?_, ?_, ?_⟩
  · intro hside hsl
    unfold btStep
    rw [if_neg hsc, if_neg hopen]
    dsimp only
    rw [if_pos hside, if_pos hsl]
  · intro hside hnsl htp
    unfold btStep
    rw [if_neg hsc, if_neg hopen]
    dsimp only
    rw [if_pos hside, if_neg hnsl, if_pos htp]
  · intro hside hsl
    unfold btStep
    rw [if_neg hsc, if_neg hopen]
    dsimp only
    rw [if_neg hside, if_pos hsl]
  · intro hside hnsl htp
    unfold btStep
    rw [if_neg hsc, if_neg hopen]
    dsimp only
    rw [if_neg hside, if_neg hnsl, if_pos htp]

/-- Witness for C3: a LONG position whose candle crosses both levels
(`low ≤ SL` and `high ≥ TP`) closes as SL with `pnl_r = -1`; with only TP
crossed it closes at `pnl_r = +rr = 1.5`. -/
theorem backtest_sl_before_tp_witness :
    btStep "BTCUSDT" 0 (3/2) (1/250) ⟨4/5, "LONG", []⟩ 1
        ⟨1, 100, 101, 99, 100, 0⟩
        (some ⟨"BTCUSDT", "LONG", 100, 498/5, 503/5, 0, 0, 4/5, []⟩)
      = (none, some ⟨⟨"BTCUSDT", "LONG", 100, 498/5, 503/5, 0, 0, 4/5, []⟩,
          1, 1, 498/5, -1⟩)
    ∧ btStep "BTCUSDT" 0 (3/2) (1/250) ⟨4/5, "LONG", []⟩ 1
        ⟨1, 100, 101, 100, 100, 0⟩
        (some ⟨"BTCUSDT", "LONG", 100, 498/5, 503/5, 0, 0, 4/5, []⟩)
      = (none, some ⟨⟨"BTCUSDT", "LONG", 100, 498/5, 503/5, 0, 0, 4/5, []⟩,
          1, 1, 503/5, 3/2⟩) := by
  constructor
  · exact (backtest_sl_before_tp "BTCUSDT" 0 (3/2) (1/250) ⟨4/5, "LONG", []⟩ 1
      ⟨1, 100, 101, 99, 100, 0⟩ ⟨"BTCUSDT", "LONG", 100, 498/5, 503/5, 0, 0, 4/5, []⟩
      (by show ¬(|(4/5 : ℚ)| < 0); norm_num)).1 rfl
      (by show (99 : ℚ) ≤ 498/5; norm_num)
  · exact (backtest_sl_before_tp "BTCUSDT" 0 (3/2) (1/250) ⟨4/5, "LONG", []⟩ 1
      ⟨1, 100, 101, 100, 100, 0⟩ ⟨"BTCUSDT", "LONG", 100, 498/5, 503/5, 0, 0, 4/5, []⟩
      (by show ¬(|(4/5 : ℚ)| < 0); norm_num)).2.1 rfl
      (by show ¬((100 : ℚ) ≤ 498/5); norm_num)
      (by show (503/5 : ℚ) ≤ 101; norm_num)

/-! ## A concrete stored-rows history with a strong LONG signal

210 degenerate candles (`o = h = low = c`): 195 flat at 100, a jump to
200, then 14 closes alternating 198/200.  On this history the technical
agent computes `ema200 ≈ 112`, `rsi_fast = 50`, `rsi_slow = 1425/16`,
`atr = 2`, volatility regime "normal", and hence score `0.8`,
confidence `0.9` when the rows are fresh. -/

def alt14 : List ℚ :=
  [198, 200, 198, 200, 198, 200, 198, 200, 198, 200, 198, 200, 198, 200]

def cexCloses : List ℚ := List.replicate 195 100 ++ (200 :: alt14)

/-- Rows at 1-second spacing (`tMs = 1000·i`), degenerate OHLC. -/
def mkRows : ℕ → List ℚ → List BtRow
  | _, [] => []
  | i, p :: ps => ⟨1000 * i, p, p, p, p, 0⟩ :: mkRows (i + 1) ps

def cexRows : List BtRow := mkRows 0 cexCloses

/-- The observed world for the counterexamples: clock at the last row's
timestamp (fresh data), default consensus knobs, weights/thresholds and
freshness configuration as shipped. -/
def cexEnv : BtEnv :=
  ⟨209, cexRows, [("technical", 3/5)], [("long", 3/5), ("short", -(3/5))],
    defaultConsensusCfg, 900, 900⟩

/-- Two candles passed to the simulation: entry candle at close 100, then
a candle whose low crosses the 99.6 stop. -/
def cexCandles : List Candle :=
  [⟨0, 100, 100, 100, 100, 0⟩, ⟨1, 100, 100, 99, 100, 0⟩]

theorem take_replicate_append (x : ℚ) (l : List ℚ) (n m : ℕ) :
    List.take (n + m) (List.replicate n x ++ l)
      = List.replicate n x ++ List.take m l := by
  induction n with
  | zero => simp
  | succ k ih => simp [List.replicate_succ, Nat.succ_add, ih]

theorem drop_replicate_append (x : ℚ) (l : List ℚ) (n m : ℕ) :
    List.drop (n + m) (List.replicate n x ++ l) = List.drop m l := by
  induction n with
  | zero => simp
  | succ k ih => simp [List.replicate_succ, Nat.succ_add, ih]

theorem mkRows_length (ps : List ℚ) : ∀ i, (mkRows i ps).length = ps.length := by
  induction ps with
  | nil => intro i; rfl
  | cons p ps ih => intro i; simp [mkRows, ih]

theorem mkRows_map_c (ps : List ℚ) :
    ∀ i, ((mkRows i ps).map rowToCandle).map (fun c => c.c) = ps := by
  induction ps with
  | nil => intro i; rfl
  | cons p ps ih => intro i; simp [mkRows, rowToCandle, ih]

theorem mkRows_map_h (ps : List ℚ) :
    ∀ i, ((mkRows i ps).map rowToCandle).map (fun c => c.h) = ps := by
  induction ps with
  | nil => intro i; rfl
  | cons p ps ih => intro i; simp [mkRows, rowToCandle, ih]

theorem mkRows_map_low (ps : List ℚ) :
    ∀ i, ((mkRows i ps).map rowToCandle).map (fun c => c.low) = ps := by
  induction ps with
  | nil => intro i; rfl
  | cons p ps ih => intro i; simp [mkRows, rowToCandle, ih]

theorem mkRows_getLast_bounds (ps : List ℚ) : ∀ i, ps ≠ [] →
    ∃ r, (mkRows i ps).getLast? = some r
      ∧ (1000 * i : ℤ) ≤ r.tMs ∧ r.tMs ≤ 1000 * (i + ps.length) - 1000 := by
  induction ps with
  | nil => intro i h; exact absurd rfl h
  | cons p ps ih =>
      intro i _
      cases ps with
      | nil =>
          refine ⟨⟨1000 * i, p, p, p, p, 0⟩, rfl, le_refl _, ?_⟩
          simp only [List.length_cons, List.length_nil]
          push_cast
          linarith
      | cons q ps' =>
          obtain ⟨r, hr, h1, h2⟩ := ih (i + 1) (List.cons_ne_nil _ _)
          refine ⟨r, ?_, ?_, ?_⟩
          · show (mkRows i (p :: q :: ps')).getLast? = some r
            rw [show mkRows i (p :: q :: ps')
                = ⟨1000 * i, p, p, p, p, 0⟩ :: mkRows (i + 1) (q :: ps') from rfl]
            rw [show mkRows (i + 1) (q :: ps')
                = ⟨1000 * (i + 1), q, q, q, q, 0⟩ :: mkRows (i + 2) ps' from rfl]
            rw [List.getLast?_cons_cons]
            rw [← show mkRows (i + 1) (q :: ps')
                = ⟨1000 * (i + 1), q, q, q, q, 0⟩ :: mkRows (i + 2) ps' from rfl]
            exact hr
          · calc (1000 * i : ℤ) ≤ 1000 * (i + 1) := by push_cast; linarith
              _ ≤ r.tMs := h1
          · calc r.tMs ≤ 1000 * ((i : ℤ) + 1 + (q :: ps').length) - 1000 := by
                  exact_mod_cast h2
              _ = 1000 * ((i : ℤ) + (p :: q :: ps').length) - 1000 := by
                  simp only [List.length_cons]
                  push_cast
                  ring

theorem consecutiveDiffs_replicate (x : ℚ) (l : List ℚ) : ∀ n,
    consecutiveDiffs (List.replicate (n + 1) x ++ l)
      = List.replicate n 0 ++ consecutiveDiffs (x :: l) := by
  intro n
  induction n with
  | zero => simp [List.replicate_succ]
  | succ k ih =>
      rw [List.replicate_succ, List.cons_append]
      rw [show List.replicate (k + 1) x ++ l
          = x :: (List.replicate k x ++ l) by rw [List.replicate_succ]; rfl]
      rw [show consecutiveDiffs (x :: (x :: (List.replicate k x ++ l)))
          = (x - x) :: consecutiveDiffs (x :: (List.replicate k x ++ l))
          from rfl]
      rw [show x :: (List.replicate k x ++ l)
          = List.replicate (k + 1) x ++ l by rw [List.replicate_succ]; rfl]
      rw [ih, sub_self, List.replicate_succ]
      rfl

theorem trList_replicate_diag (x : ℚ) (l : List ℚ) : ∀ n,
    trList (List.replicate (n + 1) x ++ l) (List.replicate (n + 1) x ++ l)
        (List.replicate (n + 1) x ++ l)
      = List.replicate n 0 ++ trList (x :: l) (x :: l) (x :: l) := by
  intro n
  induction n with
  | zero => simp [List.replicate_succ]
  | succ k ih =>
      rw [List.replicate_succ, List.cons_append]
      rw [show List.replicate (k + 1) x ++ l
          = x :: (List.replicate k x ++ l) by rw [List.replicate_succ]; rfl]
      rw [show trList (x :: (x :: (List.replicate k x ++ l)))
            (x :: (x :: (List.replicate k x ++ l)))
            (x :: (x :: (List.replicate k x ++ l)))
          = max (x - x) (max |x - x| |x - x|)
            :: trList (x :: (List.replicate k x ++ l))
              (x :: (List.replicate k x ++ l))
              (x :: (List.replicate k x ++ l)) from rfl]
      rw [show x :: (List.replicate k x ++ l)
          = List.replicate (k + 1) x ++ l by rw [List.replicate_succ]; rfl]
      rw [ih, sub_self, abs_zero, max_self, max_self, List.replicate_succ]
      rfl

theorem cexCloses_length : cexCloses.length = 210 := by
  rw [cexCloses, List.length_append, List.length_replicate, alt14]
  rfl

theorem getLast_cons_scanl (f : ℚ → ℚ → ℚ) (e b : ℚ) (l : List ℚ) :
    (e :: List.scanl f b l).getLast? = (List.scanl f b l).getLast? := by
  cases l <;> simp [List.scanl, List.getLast?_cons_cons]

theorem scanl_ema_bound (l : List ℚ) : ∀ e : ℚ, 100 ≤ e →
    (∀ p ∈ l, 100 ≤ p ∧ p ≤ 200) →
    ∃ z, (List.scanl (fun e p => p * (2/201) + e * (1 - 2/201)) e l).getLast?
        = some z
      ∧ 100 ≤ z ∧ z ≤ e + l.length := by
  induction l with
  | nil =>
      intro e he _
      exact ⟨e, by simp [List.scanl], he, by simp⟩
  | cons p l ih =>
      intro e he hall
      have hp := hall p (List.mem_cons_self _ _)
      have hlb : (100 : ℚ) ≤ p * (2/201) + e * (1 - 2/201) := by linarith
      have hub : p * (2/201) + e * (1 - 2/201) ≤ e + 1 := by linarith
      obtain ⟨z, hz, hz1, hz2⟩ :=
        ih _ hlb (fun q hq => hall q (List.mem_cons_of_mem _ hq))
      refine ⟨z, ?_, hz1, ?_⟩
      · rw [List.scanl, getLast_cons_scanl]
        exact hz
      · rw [List.length_cons]
        push_cast
        linarith

theorem cex_ema : ∃ z, (ema cexCloses 200).getLast? = some z
    ∧ 100 ≤ z ∧ z ≤ 191 := by
  unfold ema
  rw [if_neg (by rw [cexCloses_length]; norm_num)]
  have htake : cexCloses.take 200
      = List.replicate 195 (100:ℚ) ++ [200, 198, 200, 198, 200] := by
    rw [cexCloses, show (200:ℕ) = 195 + 5 from rfl, take_replicate_append,
      alt14]
    rfl
  have hdrop : cexCloses.drop 200
      = [(198:ℚ), 200, 198, 200, 198, 200, 198, 200, 198, 200] := by
    rw [cexCloses, show (200:ℕ) = 195 + 5 from rfl, drop_replicate_append,
      alt14]
    rfl
  rw [htake, hdrop]
  have hsma : (List.replicate 195 (100:ℚ)
      ++ [200, 198, 200, 198, 200]).sum / ((200 : ℕ) : ℚ) = 2562/25 := by
    rw [List.sum_append, List.sum_replicate, nsmul_eq_mul]
    norm_num
  rw [hsma]
  have hk : ((200 : ℕ) : ℚ) + 1 = 201 := by norm_num
  simp only [hk]
  obtain ⟨z, hz, hz1, hz2⟩ := scanl_ema_bound
    [(198:ℚ), 200, 198, 200, 198, 200, 198, 200, 198, 200] (2562/25)
    (by norm_num)
    (by
      intro p hp
      simp only [List.mem_cons, List.not_mem_nil, or_false] at hp
      rcases hp with rfl | rfl | rfl | rfl | rfl | rfl | rfl | rfl | rfl | rfl
        <;> norm_num)
  refine ⟨z, hz, hz1, ?_⟩
  calc z ≤ 2562/25 + ([(198:ℚ), 200, 198, 200, 198, 200, 198, 200, 198,
      200] : List ℚ).length := hz2
    _ ≤ 191 := by norm_num

theorem cex_rsi14 : rsi cexCloses 14 = some 50 := by
  unfold rsi
  rw [if_neg (by rw [cexCloses_length]; norm_num)]
  have hdrop : cexCloses.drop (cexCloses.length - (14 + 1))
      = 200 :: alt14 := by
    rw [cexCloses_length, show (210 - (14 + 1) : ℕ) = 195 + 0 from rfl,
      cexCloses, drop_replicate_append]
    rfl
  rw [hdrop]
  norm_num [alt14, consecutiveDiffs, max_def]

theorem cex_rsi50 : rsi cexCloses 50 = some (1425/16) := by
  unfold rsi
  rw [if_neg (by rw [cexCloses_length]; norm_num)]
  have hdrop : cexCloses.drop (cexCloses.length - (50 + 1))
      = List.replicate 36 (100:ℚ) ++ (200 :: alt14) := by
    rw [cexCloses_length, show (210 - (50 + 1) : ℕ) = 159 + 0 from rfl,
      cexCloses, show (195 : ℕ) = 159 + 36 from rfl, List.replicate_add,
      List.append_assoc, drop_replicate_append]
    rfl
  rw [hdrop, show (36 : ℕ) = 35 + 1 from rfl,
    consecutiveDiffs_replicate (100:ℚ) (200 :: alt14) 35]
  rw [List.map_append, List.map_replicate, List.sum_append,
    List.sum_replicate, List.map_append, List.map_replicate,
    List.sum_append, List.sum_replicate]
  norm_num [alt14, consecutiveDiffs, max_def]

theorem cex_atr : atr cexCloses cexCloses cexCloses 14 = some 2 := by
  unfold atr
  rw [if_neg (by rw [cexCloses_length]; norm_num)]
  have htr : trList cexCloses cexCloses cexCloses
      = List.replicate 194 (0:ℚ)
        ++ trList (100 :: 200 :: alt14) (100 :: 200 :: alt14)
            (100 :: 200 :: alt14) := by
    rw [cexCloses, show (195 : ℕ) = 194 + 1 from rfl,
      trList_replicate_diag (100:ℚ) (200 :: alt14) 194]
  have htr15 : trList ((100:ℚ) :: 200 :: alt14) (100 :: 200 :: alt14)
      (100 :: 200 :: alt14)
      = 100 :: List.replicate 14 (2:ℚ) := by
    rw [alt14]
    norm_num [trList, max_def, abs_of_nonneg, abs_of_nonpos]
    rfl
  rw [htr, htr15]
  rw [if_neg (by
    rw [List.length_append, List.length_replicate, List.length_cons,
      List.length_replicate]
    norm_num)]
  have hdrop2 : (List.replicate 194 (0:ℚ)
      ++ (100 :: List.replicate 14 (2:ℚ))).drop
        ((List.replicate 194 (0:ℚ)
          ++ (100 :: List.replicate 14 (2:ℚ))).length - 14)
      = List.replicate 14 (2:ℚ) := by
    rw [List.length_append, List.length_replicate, List.length_cons,
      List.length_replicate,
      show (194 + (14 + 1) - 14 : ℕ) = 194 + 1 from rfl,
      drop_replicate_append]
    rfl
  rw [hdrop2, List.sum_replicate, nsmul_eq_mul]
  norm_num

theorem cex_getLastD : cexCloses.getLastD 0 = 200 := by
  rw [cexCloses, alt14, List.getLastD_eq_getLast?, List.getLast?_append]
  rfl

theorem cex_techRun (p : String) (fresh : Bool) :
    (TechnicalAgent.run p (cexRows.map rowToCandle) fresh).score = 4/5
    ∧ (TechnicalAgent.run p (cexRows.map rowToCandle) fresh).confidence
        = (if fresh then 9/10 else 3/4)
    ∧ (TechnicalAgent.run p (cexRows.map rowToCandle) fresh).inputs_fresh
        = fresh := by
  unfold cexRows
  have hlen : ((mkRows 0 cexCloses).map rowToCandle).length = 210 := by
    rw [List.length_map, mkRows_length, cexCloses_length]
  have hc := mkRows_map_c cexCloses 0
  have hh := mkRows_map_h cexCloses 0
  have hlow := mkRows_map_low cexCloses 0
  have hreg : techVolRegime ((2:ℚ)/200) = "normal" := by
    unfold techVolRegime
    rw [if_neg (by norm_num), if_neg (by norm_num), if_neg (by norm_num)]
  unfold TechnicalAgent.run
  rw [if_neg (by rw [hlen]; norm_num), hc, hh, hlow]
  obtain ⟨E, hE, hE1, hE2⟩ := cex_ema
  rw [hE, cex_rsi14, cex_rsi50, cex_atr]
  dsimp only
  rw [cex_getLastD, if_neg (by norm_num)]
  refine ⟨?_, ?_, rfl⟩
  · show techScore 200 E 50 (1425/16) 2 = 4/5
    have htn : techTrendNorm 200 E 2 = 1 := by
      unfold techTrendNorm clamp
      rw [max_eq_right (by norm_num : (1/1000000000 : ℚ) ≤ 2 * (3/2))]
      have h3 : (3:ℚ) ≤ (200 - E) / (3 : ℚ) := by
        rw [le_div_iff (by norm_num : (0:ℚ) < 3)]
        linarith
      rw [show (2 * (3/2) : ℚ) = 3 by norm_num]
      rw [min_eq_left h3, max_eq_right (by norm_num : (-3:ℚ) ≤ 3)]
      norm_num
    have hte : techTrendEffective 200 E 2 = 1 := by
      unfold techTrendEffective
      rw [htn, if_neg (by norm_num)]
      unfold clamp
      rw [min_self, max_eq_right (by norm_num : (-1:ℚ) ≤ 1)]
    have hrsig : techRsiSig 50 (1425/16) = 0 := by
      unfold techRsiSig clamp
      rw [if_neg (by norm_num), if_neg (by norm_num), if_neg (by norm_num),
        if_neg (by norm_num)]
      rw [min_eq_right (by norm_num : (0:ℚ) ≤ 1),
        max_eq_right (by norm_num : (-1:ℚ) ≤ 0)]
    have hwt : techWTrend "normal" = 4/5 := by
      unfold techWTrend
      rw [if_neg (by decide), if_neg (by decide)]
    have hwr : techWRsi "normal" = 1/5 := by
      unfold techWRsi
      rw [if_neg (by decide), if_neg (by decide), if_neg (by decide)]
    have hcl : clamp (4/5 * 1 + 1/5 * 0) (-1) 1 = 4/5 := by
      unfold clamp
      rw [show (4/5 * 1 + 1/5 * 0 : ℚ) = 4/5 by norm_num,
        min_eq_right (by norm_num : (4/5:ℚ) ≤ 1),
        max_eq_right (by norm_num : (-1:ℚ) ≤ 4/5)]
    unfold techScore techScoreClamped
    rw [hreg, hte, hrsig, hwt, hwr, hcl]
    rw [if_neg (by
      rw [abs_of_pos (by norm_num : (0:ℚ) < 4/5)]
      norm_num)]
  · show techConf (techVolRegime ((2:ℚ)/200)) fresh = _
    rw [hreg]
    unfold techConf clamp
    rw [if_neg (by decide), if_neg (by decide), if_neg (by decide)]
    cases fresh
    · rw [show ((if (false : Bool) then (0:ℚ) else 3/20)) = 3/20 from rfl,
        show (9/10 - 0 - 3/20 : ℚ) = 3/4 by norm_num,
        min_eq_right (by norm_num : (3/4:ℚ) ≤ 19/20),
        max_eq_right (by norm_num : (1/10:ℚ) ≤ 3/4)]
      rfl
    · rw [show ((if (true : Bool) then (0:ℚ) else 3/20)) = 0 from rfl,
        show (9/10 - 0 - 0 : ℚ) = 9/10 by norm_num,
        min_eq_right (by norm_num : (9/10:ℚ) ≤ 19/20),
        max_eq_right (by norm_num : (1/10:ℚ) ≤ 9/10)]
      rfl

theorem pyRound_eq_self (q : ℚ) (z : ℤ) (h : q * (10:ℚ)^(6:ℕ) = z) :
    pyRound q 6 = q := by
  unfold pyRound roundHalfEven
  rw [h, Int.floor_intCast, if_pos (by rw [sub_self]; norm_num)]
  rw [← h]
  field_simp

theorem decide_pair_tech_fresh_eval (pair : String) :
    decide_pair pair [("technical", ⟨4/5, 9/10, true⟩)] [("technical", 3/5)]
      [("long", 3/5), ("short", -(3/5))] defaultConsensusCfg
    = (4/5, "LONG", "technical driver, no veto",
        [("technical", 4/5, 9/10)]) := by
  have hS : fusedScore [("technical", 3/5)]
      [("technical", ⟨4/5, 9/10, true⟩)] = 4/5 := by
    have hinc : List.filter voteIncluded
        [(("technical" : String), (⟨4/5, 9/10, true⟩ : Vote))]
        = [("technical", ⟨4/5, 9/10, true⟩)] := by
      rw [List.filter_cons, if_pos (by
        unfold voteIncluded
        rw [decide_eq_true (show (0:ℚ) < 9/10 by norm_num)]
        rfl)]
      rfl
    unfold fusedScore fusionTotalWeight fusionWeightedSum clamp
    rw [hinc]
    simp only [List.map_cons, List.map_nil, List.sum_cons, List.sum_nil]
    norm_num [weightOf, min_def, max_def]
  unfold decide_pair
  rw [if_neg (List.cons_ne_nil _ _)]
  have hcs : criticalStaleList defaultConsensusCfg.criticalAgents
      [("technical", ⟨4/5, 9/10, true⟩)] = [] := rfl
  rw [if_neg (fun h => h hcs)]
  rw [show lookupVote [("technical", ⟨4/5, 9/10, true⟩)] "technical"
      = some ⟨4/5, 9/10, true⟩ from rfl]
  dsimp only
  rw [if_neg (fun h => Bool.noConfusion h)]
  rw [show proposalOf defaultConsensusCfg (Vote.mk (4/5) (9/10) true).score
      = some "LONG" from by
    unfold proposalOf
    rw [if_pos (show defaultConsensusCfg.techLongThr
      ≤ (Vote.mk (4/5) (9/10) true).score by
        show (7/10 : ℚ) ≤ 4/5
        norm_num)]]
  dsimp only
  have hva : vetoAgentsList defaultConsensusCfg "LONG"
      [("technical", ⟨4/5, 9/10, true⟩)] = [] := rfl
  rw [if_neg (fun h => h hva), hS]
  rfl

theorem decide_pair_tech_stale_eval (pair : String) :
    decide_pair pair [("technical", ⟨4/5, 3/4, false⟩)] [("technical", 3/5)]
      [("long", 3/5), ("short", -(3/5))] defaultConsensusCfg
    = (0, "HOLD", "critical stale: technical",
        [("technical", 4/5, 3/4)]) := by
  have hS : fusedScore [("technical", 3/5)]
      [("technical", ⟨4/5, 3/4, false⟩)] = 0 := by
    have hinc : List.filter voteIncluded
        [(("technical" : String), (⟨4/5, 3/4, false⟩ : Vote))] = [] := rfl
    unfold fusedScore fusionTotalWeight fusionWeightedSum
    rw [hinc]
    norm_num
  unfold decide_pair
  rw [if_neg (List.cons_ne_nil _ _)]
  have hcs : criticalStaleList defaultConsensusCfg.criticalAgents
      [("technical", ⟨4/5, 3/4, false⟩)] = ["technical"] := rfl
  rw [if_pos (by rw [hcs]; exact List.cons_ne_nil _ _), hcs, hS]
  rfl

theorem cexRows_ne_nil : cexRows ≠ [] := by
  intro h
  have := congrArg List.length h
  rw [show cexRows = mkRows 0 cexCloses from rfl, mkRows_length,
    cexCloses_length] at this
  exact absurd this (by norm_num)

theorem cex_fresh_verdict (n : ℚ) (hn : n ≤ 1800) :
    isFresh (latestTsFromRows cexRows) n (effFreshnessSec cexEnv)
      = true := by
  obtain ⟨r, hr, h1, h2⟩ := mkRows_getLast_bounds cexCloses 0 (by
    intro h
    have := congrArg List.length h
    rw [cexCloses_length] at this
    exact absurd this (by norm_num))
  unfold latestTsFromRows
  rw [show cexRows = mkRows 0 cexCloses from rfl, hr]
  unfold isFresh
  rw [show effFreshnessSec cexEnv = 1800 from by
    unfold effFreshnessSec cexEnv
    rw [max_eq_right (by norm_num : (900:ℚ) ≤ 2 * 900)]
    norm_num]
  apply decide_eq_true
  have h1' : (0 : ℚ) ≤ (r.tMs : ℚ) := by
    exact_mod_cast (by linarith : (0:ℤ) ≤ r.tMs)
  have ht : (0:ℚ) ≤ (r.tMs : ℚ) / 1000 := div_nonneg h1' (by norm_num)
  linarith

theorem cex_stale_verdict :
    isFresh (latestTsFromRows cexRows) 1000000000 (effFreshnessSec cexEnv)
      = false := by
  obtain ⟨r, hr, h1, h2⟩ := mkRows_getLast_bounds cexCloses 0 (by
    intro h
    have := congrArg List.length h
    rw [cexCloses_length] at this
    exact absurd this (by norm_num))
  unfold latestTsFromRows
  rw [show cexRows = mkRows 0 cexCloses from rfl, hr]
  unfold isFresh
  rw [show effFreshnessSec cexEnv = 1800 from by
    unfold effFreshnessSec cexEnv
    rw [max_eq_right (by norm_num : (900:ℚ) ≤ 2 * 900)]
    norm_num]
  apply decide_eq_false
  rw [cexCloses_length] at h2
  push_cast at h2
  have h2' : (r.tMs : ℚ) ≤ 209000 := by
    exact_mod_cast (by linarith : r.tMs ≤ 209000)
  have ht : (r.tMs : ℚ) / 1000 ≤ 209 := by
    rw [div_le_iff (by norm_num : (0:ℚ) < 1000)]
    linarith
  intro hcon
  linarith

theorem cex_runOnce_fresh (pair : String) :
    runOnceSignal cexEnv pair
      = ⟨4/5, "LONG", [("technical", 4/5, 9/10)]⟩ := by
  have hv : collectVotesSingle cexEnv pair
      = [("technical", ⟨4/5, 9/10, true⟩)] := by
    unfold collectVotesSingle
    rw [if_neg (show ¬(cexEnv.rows = []) from cexRows_ne_nil)]
    unfold techVote
    rw [show cexEnv.rows = cexRows from rfl, show cexEnv.now = 209 from rfl,
      cex_fresh_verdict 209 (by norm_num)]
    obtain ⟨hsc, hcf, hfr⟩ := cex_techRun pair true
    rw [hsc, hcf, hfr]
    rfl
  unfold runOnceSignal
  rw [hv, show cexEnv.weights = [("technical", (3/5:ℚ))] from rfl,
    show cexEnv.thresholds
      = [("long", (3/5:ℚ)), ("short", -(3/5:ℚ))] from rfl,
    show cexEnv.cfg = defaultConsensusCfg from rfl,
    decide_pair_tech_fresh_eval]
  dsimp only
  rw [pyRound_eq_self (4/5) 800000 (by norm_num)]

theorem cex_runOnce_stale (pair : String) :
    runOnceSignal {cexEnv with now := 1000000000} pair
      = ⟨0, "HOLD", [("technical", 4/5, 3/4)]⟩ := by
  have hv : collectVotesSingle {cexEnv with now := 1000000000} pair
      = [("technical", ⟨4/5, 3/4, false⟩)] := by
    unfold collectVotesSingle
    rw [if_neg (show ¬(({cexEnv with now := 1000000000} : BtEnv).rows = [])
      from cexRows_ne_nil)]
    unfold techVote
    rw [show ({cexEnv with now := 1000000000} : BtEnv).rows = cexRows from rfl,
      show ({cexEnv with now := 1000000000} : BtEnv).now = 1000000000 from rfl,
      show effFreshnessSec {cexEnv with now := 1000000000}
        = effFreshnessSec cexEnv from rfl,
      cex_stale_verdict]
    obtain ⟨hsc, hcf, hfr⟩ := cex_techRun pair false
    rw [hsc, hcf, hfr]
    rfl
  unfold runOnceSignal
  rw [hv, show ({cexEnv with now := 1000000000} : BtEnv).weights
      = [("technical", (3/5:ℚ))] from rfl,
    show ({cexEnv with now := 1000000000} : BtEnv).thresholds
      = [("long", (3/5:ℚ)), ("short", -(3/5:ℚ))] from rfl,
    show ({cexEnv with now := 1000000000} : BtEnv).cfg
      = defaultConsensusCfg from rfl,
    decide_pair_tech_stale_eval]
  dsimp only
  rw [pyRound_eq_self 0 0 (by norm_num)]

def cexBreakdown : List (String × ℚ × ℚ) := [("technical", 4/5, 9/10)]

def cexOpenTrade : BtOpenTrade :=
  ⟨"BTCUSDT", "LONG", 100, 498/5, 503/5, 0, 0, 4/5, cexBreakdown⟩

def cexClosedTrade : BtClosedTrade := ⟨cexOpenTrade, 1, 1, 498/5, -1⟩

theorem cex_order_levels :
    compute_order_levels "LONG" 100 (1/100) (3/2) (1/250)
      = some ⟨"LONG", 100, 498/5, 503/5, 1/100, 3/2⟩ := by
  unfold compute_order_levels
  rw [show sUpper "LONG" = "LONG" by decide, if_pos rfl]
  rw [pyRound_eq_self 100 100000000 (by norm_num),
    pyRound_eq_self ((100:ℚ) * (1 - 1/250)) 99600000 (by norm_num),
    pyRound_eq_self ((100:ℚ) + (100 - 100 * (1 - 1/250)) * (3/2)) 100600000
      (by norm_num)]
  norm_num

theorem cex_step_open (sm : ℚ) (hsm : ¬(|(4/5 : ℚ)| < sm)) :
    btStep "BTCUSDT" sm (3/2) (1/250) ⟨4/5, "LONG", cexBreakdown⟩ 0
      ⟨0, 100, 100, 100, 100, 0⟩ none = (some cexOpenTrade, none) := by
  unfold btStep
  rw [if_neg hsm]
  rw [if_pos ⟨Or.inl (by decide), rfl⟩]
  rw [show btDecision ⟨4/5, "LONG", cexBreakdown⟩ = "LONG" by decide]
  rw [show (⟨0, 100, 100, 100, 100, 0⟩ : Candle).c = 100 from rfl,
    cex_order_levels]
  rfl

theorem cex_step_close_any (res : SigRes) :
    btStep "BTCUSDT" 0 (3/2) (1/250) res 1
      ⟨1, 100, 100, 99, 100, 0⟩ (some cexOpenTrade)
      = (none, some cexClosedTrade) := by
  unfold btStep
  rw [if_neg (not_lt.mpr (abs_nonneg _))]
  rw [if_neg (by rintro ⟨-, h⟩; cases h)]
  dsimp only
  rw [if_pos (show cexOpenTrade.side = "LONG" from rfl),
    if_pos (show (⟨1, 100, 100, 99, 100, 0⟩ : Candle).low
      ≤ cexOpenTrade.stop_loss by
        show (99 : ℚ) ≤ 498/5
        norm_num)]
  rfl

theorem cex_step_hold (c : Candle) (idx : ℕ) (sm : ℚ)
    (hsm : ¬(|(0 : ℚ)| < sm)) :
    btStep "BTCUSDT" sm (3/2) (1/250) ⟨0, "HOLD", [("technical", 4/5, 3/4)]⟩
      idx c none = (none, none) := by
  unfold btStep
  rw [if_neg hsm]
  rw [if_neg (by
    rintro ⟨h, -⟩
    rw [show btDecision ⟨0, "HOLD", [("technical", 4/5, 3/4)]⟩ = "HOLD"
      by decide] at h
    rcases h with h | h <;> exact absurd h (by decide))]

theorem cex_step_skip (tr : BtOpenTrade) (c : Candle) (idx : ℕ) (sm : ℚ)
    (hsm : |(0 : ℚ)| < sm) :
    btStep "BTCUSDT" sm (3/2) (1/250) ⟨0, "HOLD", [("technical", 4/5, 3/4)]⟩
      idx c (some tr) = (some tr, none) := by
  unfold btStep
  rw [if_pos hsm]

theorem btAggregate_nil (p : String) :
    btAggregate p [] = ⟨p, 0, 0, 0, none, none, none, []⟩ := rfl

theorem cex_aggregate :
    btAggregate "BTCUSDT" [cexClosedTrade]
      = ⟨"BTCUSDT", 1, 0, 1, some 0, some 0, some (-1),
          [cexClosedTrade]⟩ := by
  unfold btAggregate
  simp only [cexClosedTrade, List.filter_cons, List.filter_nil,
    List.map_cons, List.map_nil, List.sum_cons, List.sum_nil,
    List.length_cons, List.length_nil, decide_eq_true_eq]
  norm_num [cexClosedTrade]

/-- The environment trace of the C3 counterexample: fresh data at the
first iteration, stale data afterwards (the store's latest row has aged
past the freshness window between the two `run_once` calls). -/
def cexEnvs01 : ℕ → BtEnv :=
  fun i => if i = 0 then cexEnv else {cexEnv with now := 1000000000}

theorem btLoop_cons (pair : String) (sm rr slp : ℚ) (envs : ℕ → BtEnv)
    (c : Candle) (rest : List Candle) (idx : ℕ) (o : Option BtOpenTrade)
    (acc : List BtClosedTrade) :
    btLoop pair sm rr slp envs (c :: rest) idx o acc
      = match btStep pair sm rr slp (runOnceSignal (envs idx) pair) idx c o
          with
        | (o2, some closed) =>
            btLoop pair sm rr slp envs rest (idx + 1) o2 (acc ++ [closed])
        | (o2, none) => btLoop pair sm rr slp envs rest (idx + 1) o2 acc :=
  rfl

theorem cex_loop_fresh :
    btLoop "BTCUSDT" 0 (3/2) (1/250) (fun _ => cexEnv) cexCandles 0 none []
      = [cexClosedTrade] := by
  have h0 := cex_step_open 0 (by
    rw [abs_of_pos (by norm_num : (0:ℚ) < 4/5)]
    norm_num)
  have h1 := cex_step_close_any ⟨4/5, "LONG", cexBreakdown⟩
  have hsig : runOnceSignal ((fun _ : ℕ => cexEnv) 0) "BTCUSDT"
      = ⟨4/5, "LONG", cexBreakdown⟩ := by
    dsimp only
    rw [cex_runOnce_fresh]
    rfl
  have hsig1 : runOnceSignal ((fun _ : ℕ => cexEnv) (0 + 1)) "BTCUSDT"
      = ⟨4/5, "LONG", cexBreakdown⟩ := by
    dsimp only
    rw [cex_runOnce_fresh]
    rfl
  unfold cexCandles
  rw [btLoop_cons, hsig, h0]
  dsimp only
  rw [btLoop_cons, hsig1, h1]
  dsimp only
  rw [show btLoop "BTCUSDT" 0 (3/2) (1/250) (fun _ => cexEnv) [] (0 + 1 + 1)
      none ([] ++ [cexClosedTrade]) = [] ++ [cexClosedTrade] from rfl]
  rfl

theorem cex_loop_stale :
    btLoop "BTCUSDT" 0 (3/2) (1/250)
      (fun _ => {cexEnv with now := 1000000000}) cexCandles 0 none []
      = [] := by
  have h0 := cex_step_hold ⟨0, 100, 100, 100, 100, 0⟩ 0 0 (by
    rw [abs_zero]
    norm_num)
  have h1 := cex_step_hold ⟨1, 100, 100, 99, 100, 0⟩ (0 + 1) 0 (by
    rw [abs_zero]
    norm_num)
  have hsig : runOnceSignal ((fun _ : ℕ => ({cexEnv with now := 1000000000}
      : BtEnv)) 0) "BTCUSDT" = ⟨0, "HOLD", [("technical", 4/5, 3/4)]⟩ := by
    dsimp only
    rw [cex_runOnce_stale]
  have hsig1 : runOnceSignal ((fun _ : ℕ => ({cexEnv with now := 1000000000}
      : BtEnv)) (0 + 1)) "BTCUSDT"
      = ⟨0, "HOLD", [("technical", 4/5, 3/4)]⟩ := by
    dsimp only
    rw [cex_runOnce_stale]
  unfold cexCandles
  rw [btLoop_cons, hsig, h0]
  dsimp only
  rw [btLoop_cons, hsig1, h1]
  rfl

theorem cex_loop_mixed_skip :
    btLoop "BTCUSDT" (1/2) (3/2) (1/250) cexEnvs01 cexCandles 0 none []
      = [] := by
  have h0 := cex_step_open (1/2) (by
    rw [abs_of_pos (by norm_num : (0:ℚ) < 4/5)]
    norm_num)
  have h1 := cex_step_skip cexOpenTrade ⟨1, 100, 100, 99, 100, 0⟩ (0 + 1)
    (1/2) (by
      rw [abs_zero]
      norm_num)
  have hsig : runOnceSignal (cexEnvs01 0) "BTCUSDT"
      = ⟨4/5, "LONG", cexBreakdown⟩ := by
    rw [show cexEnvs01 0 = cexEnv from rfl, cex_runOnce_fresh]
    rfl
  have hsig1 : runOnceSignal (cexEnvs01 (0 + 1)) "BTCUSDT"
      = ⟨0, "HOLD", [("technical", 4/5, 3/4)]⟩ := by
    rw [show cexEnvs01 (0 + 1) = {cexEnv with now := 1000000000} from rfl,
      cex_runOnce_stale]
  unfold cexCandles
  rw [btLoop_cons, hsig, h0]
  dsimp only
  rw [btLoop_cons, hsig1, h1]
  rfl

theorem cex_loop_mixed_manage :
    btLoop "BTCUSDT" 0 (3/2) (1/250) cexEnvs01 cexCandles 0 none []
      = [cexClosedTrade] := by
  have h0 := cex_step_open 0 (by
    rw [abs_of_pos (by norm_num : (0:ℚ) < 4/5)]
    norm_num)
  have h1 := cex_step_close_any ⟨0, "HOLD", [("technical", 4/5, 3/4)]⟩
  have hsig : runOnceSignal (cexEnvs01 0) "BTCUSDT"
      = ⟨4/5, "LONG", cexBreakdown⟩ := by
    rw [show cexEnvs01 0 = cexEnv from rfl, cex_runOnce_fresh]
    rfl
  have hsig1 : runOnceSignal (cexEnvs01 (0 + 1)) "BTCUSDT"
      = ⟨0, "HOLD", [("technical", 4/5, 3/4)]⟩ := by
    rw [show cexEnvs01 (0 + 1) = {cexEnv with now := 1000000000} from rfl,
      cex_runOnce_stale]
  unfold cexCandles
  rw [btLoop_cons, hsig, h0]
  dsimp only
  rw [btLoop_cons, hsig1]
  have h1' : btStep "BTCUSDT" 0 (3/2) (1/250)
      (⟨0, "HOLD", [("technical", 4/5, 3/4)]⟩ : SigRes) (0 + 1)
      ⟨1, 100, 100, 99, 100, 0⟩ (some cexOpenTrade)
      = (none, some cexClosedTrade) := h1
  rw [h1']
  dsimp only
  rfl

/-! ## Claim C2 — determinism of the backtest -/

/-- **C2 counterexample.** Two runs of `simulate_backtest` on identical
pair, candle list and parameter tuple produce different trade lists and
aggregates when the wall clock has advanced between the runs: the
environments observed by `run_once` differ only in `now`
(`{cexEnv with now := 1000000000}`), yet the freshness check flips the
technical vote to stale, so the first run closes one trade and the second
closes none.  The output is therefore not a function of the simulation's
arguments alone. -/
theorem backtest_not_function_of_args :
    simulate_backtest (fun _ => cexEnv) "BTCUSDT" cexCandles 0 (3/2) (1/250)
      ≠ simulate_backtest (fun _ => {cexEnv with now := 1000000000})
          "BTCUSDT" cexCandles 0 (3/2) (1/250) := by
  unfold simulate_backtest
  rw [cex_loop_fresh, cex_loop_stale, cex_aggregate, btAggregate_nil]
  intro h
  exact one_ne_zero (congrArg BtResult.n_trades h)

/-- **C2 (corrected).** The simulation loop itself adds no randomness:
two runs on identical pair, candles and parameters whose observed
environments agree on the stored rows, weights, thresholds and consensus
configuration, and whose wall-clock freshness verdicts coincide, produce
identical trade lists and aggregates.  (The wall clock enters the loop
only through `_is_fresh`; by `backtest_not_function_of_args` the original
unconditional determinism claim fails.) -/
theorem backtest_deterministic_in_observed_env (pair : String)
    (candles : List Candle) (score_min rr sl_pct : ℚ)
    (envs1 envs2 : ℕ → BtEnv)
    (hrows : ∀ i, (envs1 i).rows = (envs2 i).rows)
    (hw : ∀ i, (envs1 i).weights = (envs2 i).weights)
    (ht : ∀ i, (envs1 i).thresholds = (envs2 i).thresholds)
    (hc : ∀ i, (envs1 i).cfg = (envs2 i).cfg)
    (hfr : ∀ i, isFresh (latestTsFromRows (envs1 i).rows) (envs1 i).now
        (effFreshnessSec (envs1 i))
      = isFresh (latestTsFromRows (envs2 i).rows) (envs2 i).now
        (effFreshnessSec (envs2 i))) :
    simulate_backtest envs1 pair candles score_min rr sl_pct
      = simulate_backtest envs2 pair candles score_min rr sl_pct := by
  have hsig : ∀ i, runOnceSignal (envs1 i) pair
      = runOnceSignal (envs2 i) pair := by
    intro i
    unfold runOnceSignal collectVotesSingle techVote
    rw [hfr i, hrows i, hw i, ht i, hc i]
  have hloop : ∀ (cs : List Candle) (idx : ℕ) (o : Option BtOpenTrade)
      (acc : List BtClosedTrade),
      btLoop pair score_min rr sl_pct envs1 cs idx o acc
        = btLoop pair score_min rr sl_pct envs2 cs idx o acc := by
    intro cs
    induction cs with
    | nil => intro idx o acc; rfl
    | cons c rest ih =>
        intro idx o acc
        rw [btLoop_cons pair score_min rr sl_pct envs1 c rest idx o acc,
          btLoop_cons pair score_min rr sl_pct envs2 c rest idx o acc,
          hsig idx]
        cases btStep pair score_min rr sl_pct (runOnceSignal (envs2 idx) pair)
            idx c o with
        | mk o2 closedOpt =>
            cases closedOpt <;> dsimp only <;> exact ih _ _ _
  unfold simulate_backtest
  rw [hloop candles 0 none []]

/-- Witness for the corrected C2: two environment traces one second apart
(both within the freshness window) yield identical results on the
concrete history. -/
theorem backtest_deterministic_in_observed_env_witness :
    simulate_backtest (fun _ => cexEnv) "BTCUSDT" cexCandles 0 (3/2) (1/250)
      = simulate_backtest (fun _ => {cexEnv with now := 210}) "BTCUSDT"
          cexCandles 0 (3/2) (1/250) :=
  backtest_deterministic_in_observed_env "BTCUSDT" cexCandles 0 (3/2) (1/250)
    (fun _ => cexEnv) (fun _ => {cexEnv with now := 210})
    (fun _ => rfl) (fun _ => rfl) (fun _ => rfl) (fun _ => rfl)
    (fun _ => by
      dsimp only
      rw [show effFreshnessSec {cexEnv with now := 210}
          = effFreshnessSec cexEnv from rfl]
      rw [show cexEnv.now = (209:ℚ) from rfl,
        show cexEnv.rows = cexRows from rfl]
      rw [cex_fresh_verdict 209 (by norm_num),
        cex_fresh_verdict 210 (by norm_num)])

/-- **C3 counterexample.** With `score_min = 1/2` the environment trace
`cexEnvs01` opens a LONG trade on candle 0 (score `0.8`), and on candle 1
the signal drops to `0`, so the `|score| < score_min` filter `continue`s
— the stop-loss crossing of candle 1 (`low = 99 ≤ SL = 99.6`) is never
checked and no trade is closed.  The same trace with `score_min = 0`
reaches the management branch and closes that very trade as SL on candle
1: the stop-loss is *not* checked on every subsequent candle, contrary to
the claim as stated. -/
theorem backtest_sl_not_checked_when_filtered :
    (simulate_backtest cexEnvs01 "BTCUSDT" cexCandles (1/2) (3/2)
        (1/250)).trades = []
    ∧ (simulate_backtest cexEnvs01 "BTCUSDT" cexCandles 0 (3/2)
        (1/250)).trades = [cexClosedTrade]
    ∧ (⟨1, 100, 100, 99, 100, 0⟩ : Candle).low ≤ cexOpenTrade.stop_loss
    ∧ cexClosedTrade.base = cexOpenTrade := by
  refine ⟨?_, ?_, ?_, rfl⟩
  · unfold simulate_backtest
    rw [cex_loop_mixed_skip, btAggregate_nil]
  · unfold simulate_backtest
    rw [cex_loop_mixed_manage, cex_aggregate]
  · show (99 : ℚ) ≤ 498/5
    norm_num

/-! ## Claims C4, C10, C8 -/

/-- **C4.** For both sides the trade-close PnL computation returns the
R-multiple `(exit-entry)/(entry-stop)` (LONG) resp.
`(entry-exit)/(stop-entry)` (SHORT) when the risk distance is positive and
exactly `0.0` when it is `≤ 0`; the function is total (never raises, no
infinities — division is guarded by the positivity test). -/
theorem pnl_r_formula (entry stop exitp : ℚ) :
    (compute_pnl_r "LONG" entry stop exitp
      = if 0 < entry - stop then (exitp - entry) / (entry - stop) else 0)
    ∧ (compute_pnl_r "SHORT" entry stop exitp
      = if 0 < stop - entry then (entry - exitp) / (stop - entry) else 0) := by
  have hl : sUpper "LONG" = "LONG" := by decide
  have hs : sUpper "SHORT" = "SHORT" := by decide
  constructor
  · unfold compute_pnl_r
    rw [hl]
    rcases le_or_lt (entry - stop) 0 with h | h
    · rw [if_pos rfl, if_pos h, if_neg (by linarith)]
    · rw [if_pos rfl, if_neg (by linarith), if_pos h]
  · unfold compute_pnl_r
    rw [hs]
    have hne : ("SHORT" : String) ≠ "LONG" := by decide
    rcases le_or_lt (stop - entry) 0 with h | h
    · rw [if_neg hne, if_pos rfl, if_pos h, if_neg (by linarith)]
    · rw [if_neg hne, if_pos rfl, if_neg (by linarith), if_pos h]

/-- **C10.** `compute_order_levels` returns the §4.4 level formulas rounded
to 6 decimal places (Python `round`, half-to-even) — not the raw values —
while `risk_pct` and `rr` are passed through unrounded; each returned level
is within half a unit in the 6th decimal place of the exact formula value.
The final conjuncts exhibit a price at which the returned entry actually
differs from the raw value. -/
theorem order_levels_rounded (price risk_pct rr d : ℚ) :
    (compute_order_levels "LONG" price risk_pct rr d
      = some ⟨"LONG", pyRound price 6, pyRound (price * (1 - d)) 6,
          pyRound (price + (price - price * (1 - d)) * rr) 6, risk_pct, rr⟩)
    ∧ (compute_order_levels "SHORT" price risk_pct rr d
      = some ⟨"SHORT", pyRound price 6, pyRound (price * (1 + d)) 6,
          pyRound (price - (price * (1 + d) - price) * rr) 6, risk_pct, rr⟩)
    ∧ |pyRound price 6 - price| ≤ 1/2000000
    ∧ |pyRound (price * (1 - d)) 6 - price * (1 - d)| ≤ 1/2000000
    ∧ |pyRound (price + (price - price * (1 - d)) * rr) 6
        - (price + (price - price * (1 - d)) * rr)| ≤ 1/2000000
    ∧ |pyRound (price * (1 + d)) 6 - price * (1 + d)| ≤ 1/2000000
    ∧ |pyRound (price - (price * (1 + d) - price) * rr) 6
        - (price - (price * (1 + d) - price) * rr)| ≤ 1/2000000
    ∧ (compute_order_levels "LONG" (2000001/2000000) (1/100) (3/2)
        (1/250)).map OrderLevels.entry = some 1
    ∧ (1 : ℚ) ≠ 2000001/2000000 := by
  have hb : (1 : ℚ) / (2 * (10:ℚ)^(6:ℕ)) = 1/2000000 := by norm_num
  have hl : sUpper "LONG" = "LONG" := by decide
  have hs : sUpper "SHORT" = "SHORT" := by decide
  have hpr : pyRound (2000001/2000000 : ℚ) 6 = 1 := by
    have hmul : (2000001/2000000 : ℚ) * (10:ℚ)^(6:ℕ) = 2000001/2 := by norm_num
    have hf : ⌊(2000001/2 : ℚ)⌋ = 1000000 := by
      rw [Int.floor_eq_iff]
      constructor <;> norm_num
    unfold pyRound roundHalfEven
    rw [hmul, hf]
    norm_num
  refine ⟨?_, ?_, ?_, ?_, ?_, ?_, ?_, ?_, by norm_num⟩
  · unfold compute_order_levels
    rw [hl, if_pos rfl]
  · unfold compute_order_levels
    rw [hs, if_neg (by decide), if_pos rfl]
  · exact hb ▸ pyRound_sub_le price 6
  · exact hb ▸ pyRound_sub_le (price * (1 - d)) 6
  · exact hb ▸ pyRound_sub_le (price + (price - price * (1 - d)) * rr) 6
  · exact hb ▸ pyRound_sub_le (price * (1 + d)) 6
  · exact hb ▸ pyRound_sub_le (price - (price * (1 + d) - price) * rr) 6
  · unfold compute_order_levels
    rw [hl]
    simp [hpr]

/-- **C8.** With `max_trades_per_day = N > 0`, once the daily state records
`n_trades ≥ N` for today's UTC date every further `check_trading_limits`
call returns `(False, reason)`; after the UTC date advances, or when the
persisted state is unreadable, the counters reset and the check returns
`(True, "limits_ok")` again (given the other checks pass); limit
parameters of `0` disable all checks entirely. -/
theorem trading_limits_daily_cap (N : ℤ) (mdr mrpt ar : ℚ)
    (raw : RawTradingState) (stored : StoredState) (today : String) :
    (0 < N → raw.date = some today → N ≤ raw.n_trades.getD 0 →
      (check_trading_limits N mdr mrpt ar (some (some raw)) today).1 = false)
    ∧ (1 ≤ N → ¬(mrpt > 0 ∧ ar > mrpt) → ¬(mdr > 0 ∧ ar > mdr) →
        raw.date ≠ some today →
        check_trading_limits N mdr mrpt ar (some (some raw)) today
          = (true, "limits_ok"))
    ∧ (1 ≤ N → ¬(mrpt > 0 ∧ ar > mrpt) → ¬(mdr > 0 ∧ ar > mdr) →
        check_trading_limits N mdr mrpt ar (some none) today
          = (true, "limits_ok"))
    ∧ check_trading_limits 0 0 0 ar stored today = (true, "limits_ok") := by
  refine ⟨?_, ?_, ?_, ?_⟩
  · intro hN hdate hge
    have hload : load_trading_state (some (some raw)) today
        = ⟨today, raw.n_trades.getD 0, raw.risk_used_r.getD 0⟩ := by
      simp only [load_trading_state]
      rw [if_pos hdate]
    unfold check_trading_limits
    rw [hload]
    split
    · rfl
    · rw [if_pos ⟨hN, show raw.n_trades.getD 0 + 1 > N by omega⟩]
  · intro hN hrpt hdr hdate
    have hload : load_trading_state (some (some raw)) today
        = ⟨today, 0, 0⟩ := by
      simp only [load_trading_state]
      rw [if_neg hdate]
    unfold check_trading_limits
    rw [hload, if_neg hrpt,
      if_neg (by rintro ⟨-, h2⟩; have h2' : (0:ℤ) + 1 > N := h2; omega),
      if_neg (by
        rintro ⟨h1, h2⟩
        have h2' : (0:ℚ) + ar > mdr := h2
        exact hdr ⟨h1, by linarith⟩)]
  · intro hN hrpt hdr
    unfold check_trading_limits
    rw [show load_trading_state (some none) today = ⟨today, 0, 0⟩ from rfl,
      if_neg hrpt,
      if_neg (by rintro ⟨-, h2⟩; have h2' : (0:ℤ) + 1 > N := h2; omega),
      if_neg (by
        rintro ⟨h1, h2⟩
        have h2' : (0:ℚ) + ar > mdr := h2
        exact hdr ⟨h1, by linarith⟩)]
  · unfold check_trading_limits
    rw [if_neg (by rintro ⟨h1, -⟩; exact absurd h1 (lt_irrefl 0)),
      if_neg (by rintro ⟨h1, -⟩; exact absurd h1 (lt_irrefl 0)),
      if_neg (by rintro ⟨h1, -⟩; exact absurd h1 (lt_irrefl 0))]

/-- Witness for C8: with `max_trades_per_day = 2` and 2 trades already
opened today the check blocks; after a date change it allows again; all
limits `0` disables everything. -/
theorem trading_limits_daily_cap_witness :
    (check_trading_limits 2 0 0 1
      (some (some ⟨some "2024-01-01", some 2, some 0⟩)) "2024-01-01").1 = false
    ∧ check_trading_limits 2 0 0 1
        (some (some ⟨some "2024-01-01", some 2, some 0⟩)) "2024-01-02"
        = (true, "limits_ok")
    ∧ check_trading_limits 2 0 0 1 (some none) "2024-01-02"
        = (true, "limits_ok")
    ∧ check_trading_limits 0 0 0 1
        (some (some ⟨some "2024-01-01", some 99, some 50⟩)) "2024-01-01"
        = (true, "limits_ok") := by
  have h := trading_limits_daily_cap 2 0 0 1
    ⟨some "2024-01-01", some 2, some 0⟩
    (some (some ⟨some "2024-01-01", some 99, some 50⟩)) "2024-01-01"
  have h2 := trading_limits_daily_cap 2 0 0 1
    ⟨some "2024-01-01", some 2, some 0⟩ none "2024-01-02"
  refine ⟨h.1 (by norm_num) rfl (by norm_num), ?_, ?_, h.2.2.2⟩
  · exact h2.2.1 (by norm_num) (by rintro ⟨h', -⟩; exact absurd h' (lt_irrefl 0))
      (by rintro ⟨h', -⟩; exact absurd h' (lt_irrefl 0)) (by decide)
  · exact h2.2.2.1 (by norm_num)
      (by rintro ⟨h', -⟩; exact absurd h' (lt_irrefl 0))
      (by rintro ⟨h', -⟩; exact absurd h' (lt_irrefl 0))

/-! ## Paper-trade close pass — `src/src/trade/close_paper_trades.py` and
`src/build/lib/src/trade/paper.py`

`main` of `close_paper_trades.py` reads the OPEN and CLOSED journals,
keeps the OPEN records whose identity key has no CLOSED record yet,
groups them by `(pair, interval)`, fetches one batch of klines per group
(`get_ohlcv`, an effect modelled by the `CloseEnv` oracle), simulates
each candidate over the klines after its entry and appends a CLOSED
record via `record_closed_paper_trade` when SL or TP was hit.  Wall
clock (`_now_iso`) and timestamp parsing (`_parse_ts` composed with
`int(timestamp*1000)`) are oracles of `CloseEnv`; the testnet mirroring
is not modelled — it never writes the paper CLOSED journal. -/

theorem char_toNat_ofNat_valid (n : Nat) (h : n < 55296) :
    (Char.ofNat n).toNat = n := by
  unfold Char.ofNat
  rw [dif_pos (Or.inl h)]
  unfold Char.ofNatAux Char.toNat
  simp [UInt32.toNat, BitVec.toNat_ofNatLt]

theorem char_toUpper_idem (c : Char) : c.toUpper.toUpper = c.toUpper := by
  unfold Char.toUpper
  by_cases h : c.toNat ≥ 97 ∧ c.toNat ≤ 122
  · rw [if_pos h]
    have hv : (Char.ofNat (c.toNat - 32)).toNat = c.toNat - 32 :=
      char_toNat_ofNat_valid _ (by omega)
    rw [if_neg (by rw [hv]; omega)]
  · rw [if_neg h, if_neg h]

theorem sUpper_idem (s : String) : sUpper (sUpper s) = sUpper s := by
  unfold sUpper
  rw [show (String.mk (s.data.map Char.toUpper)).data
      = s.data.map Char.toUpper from rfl, List.map_map]
  exact congrArg String.mk (List.map_congr_left
    (fun c _ => char_toUpper_idem c))

/-- An OPEN-journal record, the schema written by `open_paper_trade`
(`src/trade/paper.py`).  `t` and `interval` are optional because `main`
reads them with `.get`. -/
structure OpenRec where
  t : Option String
  pair : String
  side : String
  entry : ℚ
  stop_loss : ℚ
  take_profit : ℚ
  size : ℚ
  interval : Option String
  deriving DecidableEq

/-- A CLOSED-journal record, the schema written by
`record_closed_paper_trade` (`src/trade/paper.py`). -/
structure ClosedRec where
  pair : String
  side : String
  entry : ℚ
  stop_loss : ℚ
  take_profit : ℚ
  size : ℚ
  open_time : Option String
  exit_time : Option String
  exit : ℚ
  outcome : String
  pnl_r : ℚ
  deriving DecidableEq

abbrev PKey := Option String × String × String × ℚ × ℚ × ℚ × ℚ

/-- Python `a or b` on an optional string. -/
def orFalsy (a b : Option String) : Option String :=
  match a with
  | some s => if s = "" then b else some s
  | none => b

def make_key_paper_open (tr : OpenRec) : PKey :=
  (tr.t, tr.pair, sUpper tr.side, pyRound tr.entry 8,
   pyRound tr.stop_loss 8, pyRound tr.take_profit 8, tr.size)

def make_key_paper_closed (tr : ClosedRec) : PKey :=
  (orFalsy tr.open_time none, tr.pair, sUpper tr.side, pyRound tr.entry 8,
   pyRound tr.stop_loss 8, pyRound tr.take_profit 8, tr.size)

def record_closed_paper_trade (pair side : String)
    (entry stop_loss take_profit size exit_price : ℚ) (outcome : String)
    (opened_at : Option String) (exit_time : String) : ClosedRec :=
  ⟨pair, sUpper side, entry, stop_loss, take_profit, size, opened_at,
   some exit_time, exit_price, sUpper outcome,
   compute_pnl_r side entry stop_loss exit_price⟩

structure Kline where
  openTime : ℤ
  o : ℚ
  high : ℚ
  low : ℚ
  c : ℚ
  v : ℚ
  deriving DecidableEq

def simulate_over_klines (side : String) (sl tp : ℚ) :
    List Kline → String
  | [] => "UNKNOWN"
  | k :: rest =>
      if sUpper side = "LONG" then
        if tp ≤ k.high then "TP"
        else if k.low ≤ sl then "SL"
        else simulate_over_klines side sl tp rest
      else
        if k.low ≤ tp then "TP"
        else if sl ≤ k.high then "SL"
        else simulate_over_klines side sl tp rest

def filter_klines_since (klines : List Kline) (cutoff_ms : ℤ) :
    List Kline :=
  klines.filter (fun k => decide (cutoff_ms ≤ k.openTime))

structure CloseEnv where
  getKlines : String → String → Option (List Kline)
  parseTs : String → Option ℤ
  nowIso : String

def intervalOf (tr : OpenRec) : String :=
  match tr.interval with
  | some s => if s = "" then "15m" else s
  | none => "15m"

def addToGroups (gs : List ((String × String) × List OpenRec))
    (k : String × String) (tr : OpenRec) :
    List ((String × String) × List OpenRec) :=
  match gs with
  | [] => [(k, [tr])]
  | (k2, l) :: rest =>
      if k2 = k then (k2, l ++ [tr]) :: rest
      else (k2, l) :: addToGroups rest k tr

def buildGroups (cands : List OpenRec) :
    List ((String × String) × List OpenRec) :=
  cands.foldl (fun gs tr => addToGroups gs (tr.pair, intervalOf tr) tr) []

def processTrade (env : CloseEnv) (pair : String) (klines : List Kline)
    (tr : OpenRec) : Option ClosedRec :=
  match tr.t with
  | none => none
  | some ts =>
      match env.parseTs ts with
      | none => none
      | some cutoff =>
          if filter_klines_since klines cutoff = [] then none
          else if simulate_over_klines (sUpper tr.side) tr.stop_loss
              tr.take_profit (filter_klines_since klines cutoff)
              = "TP" then
            some (record_closed_paper_trade pair (sUpper tr.side) tr.entry
              tr.stop_loss tr.take_profit tr.size tr.take_profit "TP"
              tr.t env.nowIso)
          else if simulate_over_klines (sUpper tr.side) tr.stop_loss
              tr.take_profit (filter_klines_since klines cutoff)
              = "SL" then
            some (record_closed_paper_trade pair (sUpper tr.side) tr.entry
              tr.stop_loss tr.take_profit tr.size tr.stop_loss "SL"
              tr.t env.nowIso)
          else none

def processGroup (env : CloseEnv)
    (g : (String × String) × List OpenRec) : List ClosedRec :=
  match env.getKlines g.1.1 g.1.2 with
  | none => []
  | some [] => []
  | some (k :: ks) => g.2.filterMap (processTrade env g.1.1 (k :: ks))

def closedKeys (closedJ : List ClosedRec) : List PKey :=
  closedJ.map make_key_paper_closed

def candidatesOf (openJ : List OpenRec) (closedJ : List ClosedRec) :
    List OpenRec :=
  openJ.filter
    (fun tr => decide (make_key_paper_open tr ∉ closedKeys closedJ))

def close_pass_new (env : CloseEnv) (openJ : List OpenRec)
    (closedJ : List ClosedRec) : List ClosedRec :=
  ((buildGroups (candidatesOf openJ closedJ)).map (processGroup env)).join

def close_paper_trades_main (env : CloseEnv) (openJ : List OpenRec)
    (closedJ : List ClosedRec) : List ClosedRec :=
  closedJ ++ close_pass_new env openJ closedJ

/-! Grouping invariants: every member of a `buildGroups` group comes from
the candidate list and carries the group's `(pair, interval)` key, and
conversely every candidate lands in the group of its own key. -/

theorem addToGroups_inv (P : OpenRec → Prop)
    (gs : List ((String × String) × List OpenRec))
    (k : String × String) (tr : OpenRec)
    (hgs : ∀ g ∈ gs, ∀ y ∈ g.2, P y ∧ (y.pair, intervalOf y) = g.1)
    (htr : P tr) (hk : (tr.pair, intervalOf tr) = k) :
    ∀ g ∈ addToGroups gs k tr, ∀ y ∈ g.2,
      P y ∧ (y.pair, intervalOf y) = g.1 := by
  induction gs with
  | nil =>
      intro g hg y hy
      rw [addToGroups, List.mem_singleton] at hg
      subst hg
      rw [List.mem_singleton] at hy
      subst hy
      exact ⟨htr, hk⟩
  | cons hd rest ih =>
      intro g hg y hy
      obtain ⟨k2, l⟩ := hd
      rw [addToGroups] at hg
      split at hg
      · next heq =>
          rw [List.mem_cons] at hg
          rcases hg with hg | hg
          · subst hg
            rw [List.mem_append, List.mem_singleton] at hy
            rcases hy with hy | hy
            · exact hgs (k2, l) (List.mem_cons_self _ _) y hy
            · subst hy
              subst heq
              exact ⟨htr, hk⟩
          · exact hgs g (List.mem_cons_of_mem _ hg) y hy
      · next hne =>
          rw [List.mem_cons] at hg
          rcases hg with hg | hg
          · subst hg
            exact hgs (k2, l) (List.mem_cons_self _ _) y hy
          · exact ih (fun g' hg' => hgs g' (List.mem_cons_of_mem _ hg'))
              g hg y hy

theorem buildGroups_sound_aux (P : OpenRec → Prop) :
    ∀ (l : List OpenRec) (gs : List ((String × String) × List OpenRec)),
      (∀ y ∈ l, P y) →
      (∀ g ∈ gs, ∀ y ∈ g.2, P y ∧ (y.pair, intervalOf y) = g.1) →
      ∀ g ∈ l.foldl
          (fun gs tr => addToGroups gs (tr.pair, intervalOf tr) tr) gs,
        ∀ y ∈ g.2, P y ∧ (y.pair, intervalOf y) = g.1 := by
  intro l
  induction l with
  | nil => intro gs _ hgs; exact hgs
  | cons c rest ih =>
      intro gs hl hgs
      rw [List.foldl_cons]
      exact ih _ (fun y hy => hl y (List.mem_cons_of_mem _ hy))
        (addToGroups_inv P gs _ c hgs (hl c (List.mem_cons_self _ _)) rfl)

theorem buildGroups_sound (l : List OpenRec) :
    ∀ g ∈ buildGroups l, ∀ y ∈ g.2,
      y ∈ l ∧ (y.pair, intervalOf y) = g.1 :=
  buildGroups_sound_aux (· ∈ l) l [] (fun _ h => h) (fun g hg => absurd hg
    (List.not_mem_nil g))

theorem addToGroups_preserves
    (gs : List ((String × String) × List OpenRec))
    (k K : String × String) (x tr : OpenRec)
    (h : ∃ g ∈ gs, g.1 = K ∧ tr ∈ g.2) :
    ∃ g ∈ addToGroups gs k x, g.1 = K ∧ tr ∈ g.2 := by
  induction gs with
  | nil => obtain ⟨g, hg, _⟩ := h; exact absurd hg (List.not_mem_nil g)
  | cons hd rest ih =>
      obtain ⟨k2, l⟩ := hd
      obtain ⟨g, hg, hg1, hg2⟩ := h
      rw [List.mem_cons] at hg
      rw [addToGroups]
      rcases hg with hg | hg
      · subst hg
        split
        · exact ⟨(k2, l ++ [x]), List.mem_cons_self _ _,
            hg1, List.mem_append_left _ hg2⟩
        · exact ⟨(k2, l), List.mem_cons_self _ _, hg1, hg2⟩
      · split
        · exact ⟨g, List.mem_cons_of_mem _ hg, hg1, hg2⟩
        · obtain ⟨g', hg', h1, h2⟩ := ih ⟨g, hg, hg1, hg2⟩
          exact ⟨g', List.mem_cons_of_mem _ hg', h1, h2⟩

theorem addToGroups_adds
    (gs : List ((String × String) × List OpenRec))
    (K : String × String) (x : OpenRec) :
    ∃ g ∈ addToGroups gs K x, g.1 = K ∧ x ∈ g.2 := by
  induction gs with
  | nil =>
      exact ⟨(K, [x]), List.mem_singleton.mpr rfl, rfl,
        List.mem_singleton.mpr rfl⟩
  | cons hd rest ih =>
      obtain ⟨k2, l⟩ := hd
      rw [addToGroups]
      split
      · next heq =>
          exact ⟨(k2, l ++ [x]), List.mem_cons_self _ _, heq,
            List.mem_append_right _ (List.mem_singleton.mpr rfl)⟩
      · obtain ⟨g, hg, h1, h2⟩ := ih
        exact ⟨g, List.mem_cons_of_mem _ hg, h1, h2⟩

theorem buildGroups_complete_aux (tr : OpenRec) :
    ∀ (l : List OpenRec) (gs : List ((String × String) × List OpenRec)),
      (tr ∈ l ∨ ∃ g ∈ gs, g.1 = (tr.pair, intervalOf tr) ∧ tr ∈ g.2) →
      ∃ g ∈ l.foldl
          (fun gs x => addToGroups gs (x.pair, intervalOf x) x) gs,
        g.1 = (tr.pair, intervalOf tr) ∧ tr ∈ g.2 := by
  intro l
  induction l with
  | nil =>
      intro gs h
      rcases h with h | h
      · exact absurd h (List.not_mem_nil tr)
      · exact h
  | cons c rest ih =>
      intro gs h
      rw [List.foldl_cons]
      rcases h with h | h
      · rw [List.mem_cons] at h
        rcases h with h | h
        · subst h
          exact ih _ (Or.inr (addToGroups_adds gs _ tr))
        · exact ih _ (Or.inl h)
      · exact ih _ (Or.inr (addToGroups_preserves gs _ _ c tr h))

theorem buildGroups_complete (l : List OpenRec) (tr : OpenRec)
    (h : tr ∈ l) :
    ∃ g ∈ buildGroups l, g.1 = (tr.pair, intervalOf tr) ∧ tr ∈ g.2 :=
  buildGroups_complete_aux tr l [] (Or.inl h)

theorem processTrade_key (env : CloseEnv) (pair : String)
    (klines : List Kline) (tr : OpenRec) (c : ClosedRec)
    (hts : env.parseTs "" = none) (hp : pair = tr.pair)
    (h : processTrade env pair klines tr = some c) :
    make_key_paper_closed c = make_key_paper_open tr := by
  unfold processTrade at h
  revert h
  cases htr : tr.t with
  | none => intro h; exact absurd h (by simp)
  | some ts =>
      dsimp only
      cases hpt : env.parseTs ts with
      | none => intro h; exact absurd h (by simp)
      | some cutoff =>
          dsimp only
          intro h
          have hne : ts ≠ "" := by
            intro he
            rw [he, hts] at hpt
            exact absurd hpt (by simp)
          split at h
          · exact absurd h (by simp)
          · split at h
            · rw [Option.some_inj] at h
              subst h
              unfold make_key_paper_closed make_key_paper_open
                record_closed_paper_trade orFalsy
              rw [hp, htr]
              dsimp only
              rw [sUpper_idem, sUpper_idem, if_neg hne]
            · split at h
              · rw [Option.some_inj] at h
                subst h
                unfold make_key_paper_closed make_key_paper_open
                  record_closed_paper_trade orFalsy
                rw [hp, htr]
                dsimp only
                rw [sUpper_idem, sUpper_idem, if_neg hne]
              · exact absurd h (by simp)

theorem mem_close_pass_new (env : CloseEnv) (openJ : List OpenRec)
    (closedJ : List ClosedRec) (c : ClosedRec)
    (hc : c ∈ close_pass_new env openJ closedJ) :
    ∃ tr ∈ candidatesOf openJ closedJ,
      processTrade env tr.pair
        ((env.getKlines tr.pair (intervalOf tr)).getD []) tr = some c := by
  unfold close_pass_new at hc
  rw [List.mem_join] at hc
  obtain ⟨l, hl, hcl⟩ := hc
  rw [List.mem_map] at hl
  obtain ⟨g, hg, rfl⟩ := hl
  revert hcl
  unfold processGroup
  cases hk : env.getKlines g.1.1 g.1.2 with
  | none => intro hcl; exact absurd hcl (List.not_mem_nil c)
  | some ks =>
      cases ks with
      | nil => intro hcl; exact absurd hcl (List.not_mem_nil c)
      | cons k ks2 =>
          dsimp only
          intro hcl
          rw [List.mem_filterMap] at hcl
          obtain ⟨tr, htr, hpt⟩ := hcl
          obtain ⟨hmem, hkey⟩ := buildGroups_sound _ g hg tr htr
          refine ⟨tr, hmem, ?_⟩
          have h1 : g.1.1 = tr.pair := by rw [← hkey]
          have h2 : g.1.2 = intervalOf tr := by rw [← hkey]
          rw [← h1, ← h2, hk]
          exact hpt

theorem mem_close_pass_new_of (env : CloseEnv) (openJ : List OpenRec)
    (closedJ : List ClosedRec) (tr : OpenRec) (c : ClosedRec)
    (htr : tr ∈ candidatesOf openJ closedJ)
    (k : Kline) (ks : List Kline)
    (hk : env.getKlines tr.pair (intervalOf tr) = some (k :: ks))
    (hpt : processTrade env tr.pair (k :: ks) tr = some c) :
    c ∈ close_pass_new env openJ closedJ := by
  obtain ⟨g, hg, hg1, hg2⟩ := buildGroups_complete _ tr htr
  unfold close_pass_new
  rw [List.mem_join]
  refine ⟨processGroup env g, List.mem_map_of_mem _ hg, ?_⟩
  unfold processGroup
  have h1 : g.1.1 = tr.pair := by rw [hg1]
  have h2 : g.1.2 = intervalOf tr := by rw [hg1]
  rw [h1, h2, hk]
  rw [List.mem_filterMap]
  exact ⟨tr, hg2, hpt⟩

/-- **C7** (corrected).  Idempotence across runs of the close pass: an
OPEN record whose identity key `(open_time, pair, side, entry,
stop_loss, take_profit, size)` already has a CLOSED record at the start
of a run is skipped, so a second run of `main` on the journal produced
by the first appends no CLOSED record at all (`_parse_ts` rejects the
empty string, whence the hypothesis on the timestamp oracle).  The
within-run dedup the claim asserts does not hold — see the
counterexample. -/
theorem close_pass_idempotent (env : CloseEnv) (openJ : List OpenRec)
    (closedJ : List ClosedRec) (hts : env.parseTs "" = none) :
    close_pass_new env openJ
      (close_paper_trades_main env openJ closedJ) = [] := by
  unfold close_pass_new
  rw [List.join_eq_nil_iff]
  intro l hl
  rw [List.mem_map] at hl
  obtain ⟨g, hg, rfl⟩ := hl
  unfold processGroup
  cases hk : env.getKlines g.1.1 g.1.2 with
  | none => rfl
  | some ks =>
      cases ks with
      | nil => rfl
      | cons k ks2 =>
          dsimp only
          rw [List.filterMap_eq_nil]
          intro tr htr
          cases hpt : processTrade env g.1.1 (k :: ks2) tr with
          | none => rfl
          | some c =>
              exfalso
              obtain ⟨hmem2, hkey⟩ :=
                buildGroups_sound _ g hg tr htr
              have h1 : g.1.1 = tr.pair := by rw [← hkey]
              have h2 : g.1.2 = intervalOf tr := by rw [← hkey]
              -- tr is a candidate of the second run
              rw [candidatesOf, List.mem_filter] at hmem2
              obtain ⟨hopen, hdec⟩ := hmem2
              rw [decide_eq_true_eq] at hdec
              -- its key avoids both the old and the new closed keys
              rw [close_paper_trades_main, closedKeys, List.map_append,
                List.mem_append] at hdec
              push_neg at hdec
              obtain ⟨hold, hnew⟩ := hdec
              -- so tr was a candidate of the first run as well
              have hcand1 : tr ∈ candidatesOf openJ closedJ := by
                rw [candidatesOf, List.mem_filter]
                exact ⟨hopen, by rw [decide_eq_true_eq]; exact hold⟩
              -- and the first run closed it
              have hc1 : c ∈ close_pass_new env openJ closedJ := by
                refine mem_close_pass_new_of env openJ closedJ tr c
                  hcand1 k ks2 ?_ ?_
                · rw [← h1, ← h2]; exact hk
                · rw [← h1]; exact hpt
              have hkeq : make_key_paper_closed c
                  = make_key_paper_open tr :=
                processTrade_key env g.1.1 (k :: ks2) tr c hts h1 hpt
              exact hnew (by
                rw [← hkeq]
                exact List.mem_map_of_mem _ hc1)

/-! A concrete run: one OPEN record whose trade hits its take profit on
the stored klines. -/

def cexTs : String := "2024-01-01T00:00:00+00:00"

def cexKline : Kline := ⟨0, 100, 102, 100, 100, 0⟩

def cexCloseEnv : CloseEnv :=
  ⟨fun p i => if p = "BTCUSDT" ∧ i = "15m" then some [cexKline] else none,
   fun s => if s = cexTs then some 0 else none,
   "2024-01-02T00:00:00+00:00"⟩

def cexOpenRec : OpenRec :=
  ⟨some cexTs, "BTCUSDT", "LONG", 100, 99, 101, 1, none⟩

def cexClosedRec : ClosedRec :=
  ⟨"BTCUSDT", "LONG", 100, 99, 101, 1, some cexTs,
   some "2024-01-02T00:00:00+00:00", 101, "TP", 1⟩

theorem cex_pnl_one : compute_pnl_r "LONG" 100 99 101 = 1 := by
  unfold compute_pnl_r
  rw [if_pos (show sUpper "LONG" = "LONG" from rfl),
    if_neg (by norm_num : ¬((100:ℚ) - 99 ≤ 0))]
  norm_num

theorem cex_simulate :
    simulate_over_klines "LONG" 99 101 [cexKline] = "TP" := by
  unfold simulate_over_klines
  rw [if_pos (show sUpper "LONG" = "LONG" from rfl),
    if_pos (show (101:ℚ) ≤ cexKline.high by norm_num
      [show cexKline.high = (102:ℚ) from rfl])]

theorem cex_processTrade :
    processTrade cexCloseEnv "BTCUSDT" [cexKline] cexOpenRec
      = some cexClosedRec := by
  unfold processTrade
  rw [show cexOpenRec.t = some cexTs from rfl]
  dsimp only
  rw [show cexCloseEnv.parseTs cexTs = some 0 from rfl]
  dsimp only
  rw [show filter_klines_since [cexKline] 0 = [cexKline] from rfl]
  rw [if_neg (by exact List.cons_ne_nil cexKline [])]
  rw [show sUpper cexOpenRec.side = "LONG" from rfl,
    show cexOpenRec.stop_loss = (99:ℚ) from rfl,
    show cexOpenRec.take_profit = (101:ℚ) from rfl,
    cex_simulate, if_pos rfl]
  unfold record_closed_paper_trade
  rw [show cexOpenRec.entry = (100:ℚ) from rfl,
    show cexOpenRec.size = (1:ℚ) from rfl, cex_pnl_one,
    show sUpper "LONG" = "LONG" from rfl,
    show sUpper "TP" = "TP" from rfl]
  rfl

theorem candidatesOf_nil (openJ : List OpenRec) :
    candidatesOf openJ [] = openJ := by
  unfold candidatesOf closedKeys
  rw [List.map_nil]
  exact List.filter_eq_self.mpr (fun a _ =>
    decide_eq_true (List.not_mem_nil _))

theorem cex_close_pass_eval :
    close_paper_trades_main cexCloseEnv [cexOpenRec, cexOpenRec] []
      = [cexClosedRec, cexClosedRec] := by
  unfold close_paper_trades_main close_pass_new
  rw [candidatesOf_nil]
  rw [show buildGroups [cexOpenRec, cexOpenRec]
      = [(("BTCUSDT", "15m"), [cexOpenRec, cexOpenRec])] from rfl]
  rw [List.map_cons, List.map_nil]
  rw [show processGroup cexCloseEnv
      (("BTCUSDT", "15m"), [cexOpenRec, cexOpenRec])
      = List.filterMap
          (processTrade cexCloseEnv "BTCUSDT" [cexKline])
          [cexOpenRec, cexOpenRec] from rfl]
  rw [List.filterMap_cons_some cex_processTrade,
    List.filterMap_cons_some cex_processTrade,
    List.filterMap_nil]
  rfl

/-- **C7 counterexample.**  The dedup set `closed_keys` is computed once
at the start of `main` and not updated while candidates are processed:
with two OPEN records carrying the same identity key, one single pass
performs the close twice for that key and the closed journal ends with
two CLOSED records of that key — the second close is not a no-op,
contrary to the claim as stated. -/
theorem close_pass_duplicate_closed :
    (List.filter
        (fun c => decide
          (make_key_paper_closed c = make_key_paper_open cexOpenRec))
        (close_paper_trades_main cexCloseEnv [cexOpenRec, cexOpenRec]
          [])).length = 2 := by
  rw [cex_close_pass_eval]
  have hk : make_key_paper_closed cexClosedRec
      = make_key_paper_open cexOpenRec := rfl
  simp only [List.filter_cons, List.filter_nil, decide_eq_true hk,
    eq_self_iff_true, if_true, List.length_cons, List.length_nil]

/-- Witness for the corrected C7 at a concrete journal and oracle. -/
theorem close_pass_idempotent_witness :
    close_pass_new cexCloseEnv [cexOpenRec, cexOpenRec]
      (close_paper_trades_main cexCloseEnv [cexOpenRec, cexOpenRec] [])
      = [] :=
  close_pass_idempotent cexCloseEnv [cexOpenRec, cexOpenRec] []
    (by rfl)

end CryptoPred
